import Mathlib

/-!
Verification of the btreeny behaviour-tree runtime.

The Python source implements each control-flow composite (`sequential`,
`fallback`, `repeat`, `failsafe`, `parallel`) as a generator that is primed
once (`next(stepper)`) and then resumed once per tick (`stepper.send(blackboard)`).
We embed each generator as an explicit state machine: the state type enumerates
the generator's suspension points, and the step function performs exactly the
work the generator does between two yields.  A tick either produces a
`TreeStatus` (the yielded value) or a `PyError` (an exception propagating out
of the tick call: `BehaviourCompleteError` when a finished generator is sent
to, `ValueError` from `swap`, `TypeError` from the bookkeeping store).

A child node, as observed by a composite, is a function from its per-instance
tick count (0 on the first tick after its context manager was entered) and the
blackboard passed to that tick, to a result or a raised exception.  This is the
interaction a composite actually has with `child_action`; the spec's claims
quantify over exactly these result sequences.

Each step also returns a ghost list of events recording which child context
managers were entered (`setup i`) and which children were ticked
(`childTick i k` = child `i` ticked for the `k`-th time since its setup).
The events mirror, line by line, the `with child as action` entries and the
`child_action(blackboard)` calls of the source; they do not influence the
computation.  Teardown (context-manager exit) is not recorded.

The bookkeeping store (`_ctx.py` / `_manage_call_stack`) is modelled
separately, further below, for the graph claim.
-/

namespace BT

/-- The tri-state result type (`_tree_status.py`). -/
inductive TreeStatus where
  | RUNNING
  | SUCCESS
  | FAILURE
deriving DecidableEq, Repr

/-- Exceptions that can propagate out of a tick call or a construction. -/
inductive PyError where
  | behaviourComplete
  | valueError
  | typeError
deriving DecidableEq, Repr

instance : DecidableEq (Except PyError TreeStatus) := fun a b =>
  match a, b with
  | .ok x, .ok y => if h : x = y then .isTrue (by rw [h]) else .isFalse (by simp [h])
  | .ok _, .error _ => .isFalse (by simp)
  | .error _, .ok _ => .isFalse (by simp)
  | .error x, .error y => if h : x = y then .isTrue (by rw [h]) else .isFalse (by simp [h])

/-- Ghost events: `setup i` = child `i`'s context manager entered;
`childTick i k` = child `i`'s tick function called for the `k`-th time
(counting from 0) since its setup. -/
inductive Ev where
  | setup (i : Nat)
  | childTick (i k : Nat)
deriving DecidableEq, Repr

/-- A child node as a composite observes it: the `k`-th call of its tick
function (since the child's setup) with blackboard `b` either returns a
`TreeStatus` or raises. -/
def Child (β : Type) : Type := Nat → β → Except PyError TreeStatus

open TreeStatus

/-- A child that returns `RUNNING` for its first `d` ticks and `r` from then
on.  Every settling interaction a composite can have with a child is of this
shape. -/
def mkChild (β : Type) (d : Nat) (r : TreeStatus) : Child β :=
  fun k _ => .ok (if k < d then RUNNING else r)

/-- A child given by a plain (never-raising) tick function. -/
def pureChild {β : Type} (f : Nat → β → TreeStatus) : Child β :=
  fun k b => .ok (f k b)

/- ------------------------------------------------------------------
`sequential` (src/src/btreeny/__init__.py, lines 134-165).

Generator suspension points:
* `start i cs`   — suspended at the initial `yield RUNNING` (already consumed
                   by the priming `next(stepper)`); the children not yet
                   entered are `cs`, the next one having construction index `i`
                   (the real node starts at `start 0 children`; the index is
                   ghost data for the event log).
* `atChild i c k rest` — suspended at `yield RUNNING` inside the while loop:
                   child `i` (tick function `c`) is open and has been ticked
                   `k` times; `rest` are the children after it.
* `complete`     — suspended at the final `yield result` / generator finished;
                   `stepper.send` raises `StopIteration`, which `inner` turns
                   into `BehaviourCompleteError`.
------------------------------------------------------------------ -/

inductive SeqState (β : Type) where
  | start (i : Nat) (children : List (Child β))
  | atChild (i : Nat) (c : Child β) (k : Nat) (rest : List (Child β))
  | complete

/-- The body of `sequential.gen`'s for-loop from child `i` on: enter the next
child's context manager and tick it; `SUCCESS` exits the `with` block and
continues the loop with the same blackboard, within the same send. -/
def seqEnter {β : Type} (b : β) : Nat → List (Child β) →
    List Ev × Except PyError (SeqState β × TreeStatus)
  | _, [] => ([], .ok (.complete, SUCCESS))
  | i, c :: rest =>
    match c 0 b with
    | .error e => ([.setup i, .childTick i 0], .error e)
    | .ok RUNNING => ([.setup i, .childTick i 0], .ok (.atChild i c 1 rest, RUNNING))
    | .ok FAILURE => ([.setup i, .childTick i 0], .ok (.complete, FAILURE))
    | .ok SUCCESS =>
      let (evs, res) := seqEnter b (i + 1) rest
      (.setup i :: .childTick i 0 :: evs, res)

/-- One `stepper.send(b)` of `sequential`. -/
def sequentialStep {β : Type} (s : SeqState β) (b : β) :
    List Ev × Except PyError (SeqState β × TreeStatus) :=
  match s with
  | .start i cs => seqEnter b i cs
  | .atChild i c k rest =>
    match c k b with
    | .error e => ([.childTick i k], .error e)
    | .ok RUNNING => ([.childTick i k], .ok (.atChild i c (k + 1) rest, RUNNING))
    | .ok FAILURE => ([.childTick i k], .ok (.complete, FAILURE))
    | .ok SUCCESS =>
      let (evs, res) := seqEnter b (i + 1) rest
      (.childTick i k :: evs, res)
  | .complete => ([], .error .behaviourComplete)

/- ------------------------------------------------------------------
`fallback` (lines 168-199): the dual — `FAILURE` advances the cursor,
`SUCCESS` terminates the node, exhaustion yields `FAILURE`.
------------------------------------------------------------------ -/

inductive FbState (β : Type) where
  | start (i : Nat) (children : List (Child β))
  | atChild (i : Nat) (c : Child β) (k : Nat) (rest : List (Child β))
  | complete

/-- The body of `fallback.gen`'s for-loop from child `i` on. -/
def fbEnter {β : Type} (b : β) : Nat → List (Child β) →
    List Ev × Except PyError (FbState β × TreeStatus)
  | _, [] => ([], .ok (.complete, FAILURE))
  | i, c :: rest =>
    match c 0 b with
    | .error e => ([.setup i, .childTick i 0], .error e)
    | .ok RUNNING => ([.setup i, .childTick i 0], .ok (.atChild i c 1 rest, RUNNING))
    | .ok SUCCESS => ([.setup i, .childTick i 0], .ok (.complete, SUCCESS))
    | .ok FAILURE =>
      let (evs, res) := fbEnter b (i + 1) rest
      (.setup i :: .childTick i 0 :: evs, res)

/-- One `stepper.send(b)` of `fallback`. -/
def fallbackStep {β : Type} (s : FbState β) (b : β) :
    List Ev × Except PyError (FbState β × TreeStatus) :=
  match s with
  | .start i cs => fbEnter b i cs
  | .atChild i c k rest =>
    match c k b with
    | .error e => ([.childTick i k], .error e)
    | .ok RUNNING => ([.childTick i k], .ok (.atChild i c (k + 1) rest, RUNNING))
    | .ok SUCCESS => ([.childTick i k], .ok (.complete, SUCCESS))
    | .ok FAILURE =>
      let (evs, res) := fbEnter b (i + 1) rest
      (.childTick i k :: evs, res)
  | .complete => ([], .error .behaviourComplete)

/- ------------------------------------------------------------------
Running a machine over a list of per-tick blackboards.
------------------------------------------------------------------ -/

/-- Outputs of successive tick calls.  On an exception the machine's state is
kept (a finished generator keeps raising; `parallel`'s `is_done` is not
updated when the comprehension raises). -/
def runOut {σ β : Type} (step : σ → β → List Ev × Except PyError (σ × TreeStatus)) :
    σ → List β → List (Except PyError TreeStatus)
  | _, [] => []
  | s, b :: bs =>
    match step s b with
    | (_, .ok (s', out)) => .ok out :: runOut step s' bs
    | (_, .error e) => .error e :: runOut step s bs

/-- Number of child ticks performed within one call. -/
def tickCount (evs : List Ev) : Nat :=
  (evs.filter fun e => match e with | .childTick _ _ => true | .setup _ => false).length

/-- Indices of the children ticked within one call, in order. -/
def tickedChildren (evs : List Ev) : List Nat :=
  evs.filterMap fun e => match e with | .childTick i _ => some i | .setup _ => none

example :
    runOut sequentialStep (.start 0 [mkChild Unit 0 SUCCESS, mkChild Unit 1 SUCCESS])
      [(), (), ()] =
    [.ok RUNNING, .ok SUCCESS, .error .behaviourComplete] := by decide

example :
    runOut sequentialStep (.start 0 [mkChild Unit 0 SUCCESS, mkChild Unit 0 FAILURE])
      [(), ()] =
    [.ok FAILURE, .error .behaviourComplete] := by decide

example :
    runOut fallbackStep (.start 0 [mkChild Unit 0 FAILURE, mkChild Unit 1 SUCCESS])
      [(), (), ()] =
    [.ok RUNNING, .ok SUCCESS, .error .behaviourComplete] := by decide

example :
    tickCount (sequentialStep (.start 0 [mkChild Unit 0 SUCCESS, mkChild Unit 0 SUCCESS]) ()).1 = 2 := by
  decide

/- ------------------------------------------------------------------
`repeat` (lines 202-261) and its specialisations `retry` / `redo`
(lines 264-265).

`children` is `map(lambda f: f(), itertools.repeat(action_factory[, count]))`:
a fresh node per repetition, `count` of them when bounded.  We model the
factory as `fac : Nat → Child β`, the behaviour of the `i`-th instance
(each instance's tick counter restarts at 0).

Suspension points of `repeat.gen`:
* `start`        — at the initial (primed) yield; `result` is initialised to
                   `SUCCESS`, so with `count = 0` the loop body never runs and
                   the first send yields `SUCCESS`.
* `inChild i k`  — at `yield RUNNING` inside the while loop: repetition `i`
                   open, ticked `k` times.
* `between i`    — at the `blackboard = yield RUNNING` after repetition
                   `i - 1` matched `continue_if` with the bound not reached;
                   the next send releases that child and enters repetition `i`.
* `complete`     — terminal result yielded / generator finished.
------------------------------------------------------------------ -/

inductive RepState where
  | start
  | inChild (i k : Nat)
  | between (i : Nat)
  | complete
deriving DecidableEq, Repr

/-- Handling of a non-`RUNNING` child result `r` for repetition `i`:
`if result == continue_if: if count is not None and i >= count - 1: yield
result; return / blackboard = yield RUNNING / else: yield result; return`. -/
def repHandle (continueIf : TreeStatus) (count : Option Nat) (i : Nat) (r : TreeStatus) :
    RepState × TreeStatus :=
  if r = continueIf then
    match count with
    | some n => if n - 1 ≤ i then (.complete, r) else (.between (i + 1), RUNNING)
    | none => (.between (i + 1), RUNNING)
  else (.complete, r)

/-- Tick repetition `i` for the `k`-th time (`k = 0` right after its setup). -/
def repTickChild {β : Type} (fac : Nat → Child β) (continueIf : TreeStatus)
    (count : Option Nat) (i k : Nat) (b : β) :
    List Ev × Except PyError (RepState × TreeStatus) :=
  let evs := if k = 0 then [Ev.setup i, Ev.childTick i 0] else [Ev.childTick i k]
  match fac i k b with
  | .error e => (evs, .error e)
  | .ok RUNNING => (evs, .ok (.inChild i (k + 1), RUNNING))
  | .ok r => (evs, .ok (repHandle continueIf count i r))

/-- One `stepper.send(b)` of `repeat action_factory continue_if count`. -/
def repeatStep {β : Type} (fac : Nat → Child β) (continueIf : TreeStatus)
    (count : Option Nat) (s : RepState) (b : β) :
    List Ev × Except PyError (RepState × TreeStatus) :=
  match s with
  | .start =>
    match count with
    | some 0 => ([], .ok (.complete, SUCCESS))
    | _ => repTickChild fac continueIf count 0 0 b
  | .between i => repTickChild fac continueIf count i 0 b
  | .inChild i k => repTickChild fac continueIf count i k b
  | .complete => ([], .error .behaviourComplete)

/-- `retry = functools.partial(repeat, continue_if=TreeStatus.FAILURE)`. -/
def retryStep {β : Type} (fac : Nat → Child β) (count : Option Nat) :
    RepState → β → List Ev × Except PyError (RepState × TreeStatus) :=
  repeatStep fac FAILURE count

/-- `redo = functools.partial(repeat, continue_if=TreeStatus.SUCCESS)`. -/
def redoStep {β : Type} (fac : Nat → Child β) (count : Option Nat) :
    RepState → β → List Ev × Except PyError (RepState × TreeStatus) :=
  repeatStep fac SUCCESS count

example :
    runOut (retryStep (fun _ => mkChild Unit 0 FAILURE) (some 2)) .start [(), (), ()] =
    [.ok RUNNING, .ok FAILURE, .error .behaviourComplete] := by decide

example :
    runOut (retryStep (fun i => mkChild Unit 0 (if i = 1 then SUCCESS else FAILURE)) none)
      .start [(), ()] =
    [.ok RUNNING, .ok SUCCESS] := by decide

example :
    runOut (redoStep (fun _ => mkChild Unit 1 SUCCESS) (some 2)) .start [(), (), (), ()] =
    [.ok RUNNING, .ok RUNNING, .ok RUNNING, .ok SUCCESS] := by decide

/- ------------------------------------------------------------------
`failsafe` (lines 310-356).

Child index 0 is the nominal node, index 1 the failure node.  The nominal
`while check(blackboard)` loop yields with a bare `yield result`, never
reassigning `blackboard`: the generator's local `blackboard` keeps the value
sent on the node's very first tick for as long as the nominal branch is
active, and the failure branch's first tick also still uses it.  The state
`nominalSt bb k` records that stale value `bb`.
------------------------------------------------------------------ -/

inductive FsState (β : Type) where
  | start
  | nominalSt (bb : β) (k : Nat)
  | failureSt (k : Nat)
  | complete

/-- Body of the nominal loop with current local `blackboard = bb`: run the
check; on `True` tick the nominal child (its `k`-th tick); on `False` fall
through to the failure block, entering the failure node and ticking it with
`bb`.  `firstEvs` are the events of work done before (entering the nominal
context manager on the node's first send). -/
def fsLoop {β : Type} (check : β → Bool) (nominal failure : Child β)
    (firstEvs : List Ev) (bb : β) (k : Nat) :
    List Ev × Except PyError (FsState β × TreeStatus) :=
  if check bb then
    match nominal k bb with
    | .error e => (firstEvs ++ [.childTick 0 k], .error e)
    | .ok RUNNING => (firstEvs ++ [.childTick 0 k], .ok (.nominalSt bb (k + 1), RUNNING))
    | .ok r => (firstEvs ++ [.childTick 0 k], .ok (.complete, r))
  else
    match failure 0 bb with
    | .error e => (firstEvs ++ [.setup 1, .childTick 1 0], .error e)
    | .ok RUNNING => (firstEvs ++ [.setup 1, .childTick 1 0], .ok (.failureSt 1, RUNNING))
    | .ok r => (firstEvs ++ [.setup 1, .childTick 1 0], .ok (.complete, r))

/-- One `stepper.send(b)` of `failsafe check nominal failure`. -/
def failsafeStep {β : Type} (check : β → Bool) (nominal failure : Child β)
    (s : FsState β) (b : β) : List Ev × Except PyError (FsState β × TreeStatus) :=
  match s with
  | .start => fsLoop check nominal failure [.setup 0] b 0
  | .nominalSt bb k => fsLoop check nominal failure [] bb k
  | .failureSt k =>
    match failure k b with
    | .error e => ([.childTick 1 k], .error e)
    | .ok RUNNING => ([.childTick 1 k], .ok (.failureSt (k + 1), RUNNING))
    | .ok r => ([.childTick 1 k], .ok (.complete, r))
  | .complete => ([], .error .behaviourComplete)

example :
    runOut (failsafeStep (fun _ => true) (mkChild Nat 1 SUCCESS) (mkChild Nat 0 FAILURE))
      .start [0, 1, 2] =
    [.ok RUNNING, .ok SUCCESS, .error .behaviourComplete] := by decide

example :
    runOut (failsafeStep (fun _ => false) (mkChild Nat 0 SUCCESS) (mkChild Nat 1 SUCCESS))
      .start [0, 1] =
    [.ok RUNNING, .ok SUCCESS] := by decide

/- ------------------------------------------------------------------
`parallel` (lines 382-416) and the default aggregation
`any_running_is_running_allow_max_failures_failures` (lines 359-379).
------------------------------------------------------------------ -/

/-- The `for result in results` loop: count failures, short-circuit on the
first `RUNNING`. -/
def aggLoop (maxFailures : Nat) : List TreeStatus → Nat → TreeStatus
  | [], nFailing => if maxFailures < nFailing then FAILURE else SUCCESS
  | r :: rest, nFailing =>
    match r with
    | RUNNING => RUNNING
    | FAILURE => aggLoop maxFailures rest (nFailing + 1)
    | SUCCESS => aggLoop maxFailures rest nFailing

/-- Default result aggregation; the Python default for `max_failures` is 0. -/
def any_running_is_running_allow_max_failures_failures
    (results : List TreeStatus) (maxFailures : Nat) : TreeStatus :=
  aggLoop maxFailures results 0

/-- The list comprehension `[func(blackboard) for func in tick_functions]`:
tick every child left to right; the first exception aborts the call. -/
def parCollect {β : Type} (k : Nat) (b : β) :
    Nat → List (Child β) → List Ev × Except PyError (List TreeStatus)
  | _, [] => ([], .ok [])
  | i, c :: cs =>
    match c k b with
    | .error e => ([.childTick i k], .error e)
    | .ok r =>
      let (evs, res) := parCollect k b (i + 1) cs
      (.childTick i k :: evs, res.map (r :: ·))

/-- State of `parallel._inner`: the `is_done` flag, plus the shared tick count
of the children (every child is ticked on every call). -/
structure ParState where
  isDone : Bool
  k : Nat
deriving DecidableEq, Repr

/-- One call of `parallel._inner`. -/
def parallelStep {β : Type} (agg : List TreeStatus → TreeStatus)
    (children : List (Child β)) (s : ParState) (b : β) :
    List Ev × Except PyError (ParState × TreeStatus) :=
  if s.isDone then ([], .error .behaviourComplete)
  else
    match parCollect s.k b 0 children with
    | (evs, .error e) => (evs, .error e)
    | (evs, .ok rs) =>
      let out := agg rs
      (evs, .ok (⟨decide (out ≠ RUNNING), s.k + 1⟩, out))

/-- `parallel` with its default `result_evaluation_function`. -/
def parallelStepDefault {β : Type} (children : List (Child β)) :
    ParState → β → List Ev × Except PyError (ParState × TreeStatus) :=
  parallelStep (fun rs => any_running_is_running_allow_max_failures_failures rs 0) children

example :
    runOut (parallelStepDefault [mkChild Unit 1 SUCCESS, mkChild Unit 2 SUCCESS])
      ⟨false, 0⟩ [(), (), (), ()] =
    [.ok RUNNING, .ok RUNNING, .ok SUCCESS, .error .behaviourComplete] := by decide

/- ------------------------------------------------------------------
`remap` (lines 268-279) and `swap` (lines 282-292).

These wrap the child's tick function directly (no generator, no completion
tracking).  The dict `{from_: to, to: from_}` is modelled as an association
list, looked up with `dict.get(result, result)`.
------------------------------------------------------------------ -/

/-- `mapping.get(key, dflt)` on a dict with distinct keys. -/
def pyDictGet (mapping : List (TreeStatus × TreeStatus)) (key dflt : TreeStatus) :
    TreeStatus :=
  match mapping with
  | [] => dflt
  | (a, v) :: rest => if key = a then v else pyDictGet rest key dflt

/-- The tick function of `remap child mapping`: forward every tick to the
child and translate its result through the mapping. -/
def remap {β : Type} (child : Child β) (mapping : List (TreeStatus × TreeStatus)) :
    Child β :=
  fun k b => (child k b).map fun r => pyDictGet mapping r r

/-- `swap child from_ to`: raises `ValueError` when `from_ == to_`, otherwise
behaves as `remap child` with the dict swapping `from_` and `to_`.  (In the source the check
runs when the node's context manager is entered, before any tick.) -/
def swap {β : Type} (child : Child β) (from_ to_ : TreeStatus) :
    Except PyError (Child β) :=
  if from_ = to_ then .error .valueError
  else .ok (remap child [(from_, to_), (to_, from_)])

/- ------------------------------------------------------------------
`react` — described in spec §4.6 but not present under src/.
------------------------------------------------------------------ -/

/-- Modelled from the spec: the conditional switch `react` of §4.6 is absent
from src/ (only the spec describes it).  It holds two permanently
instantiated children, nominal (index 0, ticked `kN` times so far) and
failure (index 1, ticked `kF` times so far), plus a current mode. -/
structure ReactState where
  nominalMode : Bool
  kN : Nat
  kF : Nat
deriving DecidableEq, Repr

/-- Modelled from the spec: one tick of `react condition nominal failure`,
following the §4.6 routing table row by row.  Children never raise and keep
their instance state across mode switches. -/
def reactStep {β : Type} (condition : β → Bool) (nominal failure : Nat → β → TreeStatus)
    (s : ReactState) (b : β) : ReactState × TreeStatus :=
  match s.nominalMode, condition b with
  | true, true => (⟨true, s.kN + 1, s.kF⟩, nominal s.kN b)
  | true, false => (⟨false, s.kN, s.kF + 1⟩, failure s.kF b)
  | false, true => (⟨true, s.kN + 1, s.kF⟩, nominal s.kN b)
  | false, false => (⟨false, s.kN, s.kF + 1⟩, failure s.kF b)

/-- Outputs of successive `react` ticks (react never raises). -/
def runReact {β : Type} (condition : β → Bool)
    (nominal failure : Nat → β → TreeStatus) :
    ReactState → List β → List TreeStatus
  | _, [] => []
  | s, b :: bs =>
    let (s', out) := reactStep condition nominal failure s b
    out :: runReact condition nominal failure s' bs

example :
    runReact (fun b => b) (fun k _ => if k = 2 then SUCCESS else RUNNING)
      (fun _ _ => FAILURE) ⟨true, 0, 0⟩ [true, true, false, false, true] =
    [RUNNING, RUNNING, FAILURE, FAILURE, SUCCESS] := by decide

/- ------------------------------------------------------------------
Generic lemmas about `runOut`.
------------------------------------------------------------------ -/

theorem runOut_cons {σ β : Type} (step : σ → β → List Ev × Except PyError (σ × TreeStatus))
    (s : σ) (b : β) (bs : List β) :
    runOut step s (b :: bs) =
      match (step s b).2 with
      | .ok p => .ok p.2 :: runOut step p.1 bs
      | .error e => .error e :: runOut step s bs := by
  rcases h : step s b with ⟨evs, res⟩
  rcases res with e | ⟨s', out⟩ <;> simp [runOut, h]

theorem runOut_ok {σ β : Type} (step : σ → β → List Ev × Except PyError (σ × TreeStatus))
    {s : σ} {b : β} (bs : List β) {evs : List Ev} {s' : σ} {out : TreeStatus}
    (h : step s b = (evs, .ok (s', out))) :
    runOut step s (b :: bs) = .ok out :: runOut step s' bs := by
  rw [runOut_cons, h]

theorem runOut_err {σ β : Type} (step : σ → β → List Ev × Except PyError (σ × TreeStatus))
    {s : σ} {b : β} (bs : List β) {evs : List Ev} {e : PyError}
    (h : step s b = (evs, .error e)) :
    runOut step s (b :: bs) = .error e :: runOut step s bs := by
  rw [runOut_cons, h]

/-- A state on which every send raises `BehaviourCompleteError` keeps raising
it on every subsequent tick. -/
theorem runOut_stuck {σ β : Type} (step : σ → β → List Ev × Except PyError (σ × TreeStatus))
    (s : σ) (hs : ∀ b, (step s b).2 = .error .behaviourComplete) (bs : List β) :
    runOut step s bs = bs.map fun _ => .error .behaviourComplete := by
  induction bs with
  | nil => rfl
  | cons b bs ih =>
    rw [runOut_cons, hs b]
    simpa using ih

/-- Two states whose step results agree (up to the ghost events) produce the
same outputs forever. -/
theorem runOut_step_eq {σ β : Type} (step : σ → β → List Ev × Except PyError (σ × TreeStatus))
    (s t : σ) (h : ∀ b, (step s b).2 = (step t b).2) (bs : List β) :
    runOut step s bs = runOut step t bs := by
  induction bs generalizing s t with
  | nil => rfl
  | cons b bs ih =>
    rw [runOut_cons, runOut_cons, h b]
    cases hh : (step t b).2 with
    | error e => rw [ih s t h]
    | ok p => rfl

/- ------------------------------------------------------------------
Claim C1: the sequential trace.
------------------------------------------------------------------ -/

/-- Children of a sequential node described by settling behaviour: child `i`
returns `RUNNING` for `(cs.get i).1` ticks and then `(cs.get i).2`. -/
def seqChildren (cs : List (Nat × TreeStatus)) : List (Child Unit) :=
  cs.map fun p => mkChild Unit p.1 p.2

/-- The tick results the spec prescribes for `sequential` over children with
the given settling behaviours: each child contributes its `RUNNING` ticks;
the first `FAILURE` ends the node with `FAILURE` on that very tick; if every
child settles with `SUCCESS`, the node returns `SUCCESS` on the tick the last
child does. -/
def seqExpected : List (Nat × TreeStatus) → List TreeStatus
  | [] => [SUCCESS]
  | (d, r) :: rest =>
    List.replicate d RUNNING ++ (if r = FAILURE then [FAILURE] else seqExpected rest)

theorem mkChild_running {β : Type} (d k : Nat) (r : TreeStatus) (b : β) (h : k < d) :
    mkChild β d r k b = .ok RUNNING := by
  unfold mkChild
  rw [if_pos h]

theorem mkChild_settled {β : Type} (d : Nat) (r : TreeStatus) (b : β) :
    mkChild β d r d b = .ok r := by
  unfold mkChild
  rw [if_neg (by omega)]

/-- While the current child keeps returning `RUNNING`, `sequential` forwards
`RUNNING` and re-ticks the same child instance with an advancing per-instance
tick count (no new setup). -/
theorem seq_segment (i : Nat) (r : TreeStatus) (rest : List (Child Unit)) :
    ∀ (j k : Nat) (bs : List Unit),
    runOut sequentialStep (.atChild i (mkChild Unit (k + j) r) k rest)
        (List.replicate j () ++ bs) =
      List.replicate j (.ok RUNNING) ++
        runOut sequentialStep (.atChild i (mkChild Unit (k + j) r) (k + j) rest) bs := by
  intro j
  induction j with
  | zero => intro k bs; simp
  | succ j ih =>
    intro k bs
    have hc : mkChild Unit (k + (j + 1)) r k () = .ok RUNNING :=
      mkChild_running _ _ _ _ (by omega)
    have hstep : sequentialStep (.atChild i (mkChild Unit (k + (j + 1)) r) k rest) () =
        ([.childTick i k], .ok (.atChild i (mkChild Unit (k + (j + 1)) r) (k + 1) rest, RUNNING)) := by
      simp [sequentialStep, hc]
    have harith : k + (j + 1) = (k + 1) + j := by omega
    rw [List.replicate_succ, List.cons_append, runOut_ok _ _ hstep, List.replicate_succ,
      List.cons_append]
    rw [harith]
    rw [ih (k + 1) bs]

/-- Settling with `FAILURE` terminates the node with `FAILURE` on that tick. -/
theorem seq_settle_failure (i d : Nat) (rest : List (Child Unit)) :
    sequentialStep (.atChild i (mkChild Unit d FAILURE) d rest) () =
      ([.childTick i d], .ok (.complete, FAILURE)) := by
  simp [sequentialStep, mkChild_settled]

/-- Settling with `SUCCESS` releases the child and continues, within the same
send, with the remaining children. -/
theorem seq_settle_success (i d : Nat) (rest : List (Child Unit)) (b : Unit) :
    (sequentialStep (.atChild i (mkChild Unit d SUCCESS) d rest) b).2 =
      (sequentialStep (.start (i + 1) rest) b).2 := by
  rcases hse : seqEnter b (i + 1) rest with ⟨evs, res⟩
  simp [sequentialStep, mkChild_settled, hse]

/-- A first child settling with `SUCCESS` without ever running behaves, for
the node's outputs, like starting at the remaining children. -/
theorem seq_skip_success (i : Nat) (rest : List (Child Unit)) (b : Unit) :
    (sequentialStep (.start i (mkChild Unit 0 SUCCESS :: rest)) b).2 =
      (sequentialStep (.start (i + 1) rest) b).2 := by
  rcases hse : seqEnter b (i + 1) rest with ⟨evs, res⟩
  have hc : mkChild Unit 0 SUCCESS 0 b = .ok SUCCESS := mkChild_settled 0 SUCCESS b
  simp [sequentialStep, seqEnter, hc, hse]

theorem seq_trace_aux :
    ∀ (cs : List (Nat × TreeStatus)) (i : Nat), (∀ p ∈ cs, p.2 ≠ RUNNING) →
    runOut sequentialStep (.start i (seqChildren cs))
        (List.replicate (seqExpected cs).length ()) =
      (seqExpected cs).map .ok := by
  intro cs
  induction cs with
  | nil => intro i _; rfl
  | cons p rest ih =>
    rcases p with ⟨d, r⟩
    intro i h
    have h1 : r ≠ RUNNING := h (d, r) (List.mem_cons_self _ _)
    have h2 : ∀ p ∈ rest, p.2 ≠ RUNNING := fun p hp => h p (List.mem_cons_of_mem _ hp)
    cases d with
    | zero =>
      cases r with
      | RUNNING => exact absurd rfl h1
      | FAILURE =>
        show runOut sequentialStep (.start i (mkChild Unit 0 FAILURE :: seqChildren rest)) _ = _
        have hstep : sequentialStep (.start i (mkChild Unit 0 FAILURE :: seqChildren rest)) () =
            ([.setup i, .childTick i 0], .ok (.complete, FAILURE)) := by
          simp [sequentialStep, seqEnter, mkChild_settled]
        rw [show seqExpected ((0, FAILURE) :: rest) = [FAILURE] from by simp [seqExpected]]
        rw [show List.replicate ([FAILURE] : List TreeStatus).length () = [()] from rfl]
        rw [runOut_ok _ _ hstep]
        rfl
      | SUCCESS =>
        show runOut sequentialStep (.start i (mkChild Unit 0 SUCCESS :: seqChildren rest)) _ = _
        have hE : seqExpected ((0, SUCCESS) :: rest) = seqExpected rest := by
          simp [seqExpected]
        rw [hE]
        rw [runOut_step_eq sequentialStep _ (.start (i + 1) (seqChildren rest))
          (fun b => seq_skip_success i (seqChildren rest) b)]
        exact ih (i + 1) h2
    | succ e =>
      have hstep : sequentialStep (.start i (mkChild Unit (e + 1) r :: seqChildren rest)) () =
          ([.setup i, .childTick i 0],
            .ok (.atChild i (mkChild Unit (e + 1) r) 1 (seqChildren rest), RUNNING)) := by
        have hc : mkChild Unit (e + 1) r 0 () = .ok RUNNING := mkChild_running _ _ _ _ (by omega)
        simp [sequentialStep, seqEnter, hc]
      cases r with
      | RUNNING => exact absurd rfl h1
      | FAILURE =>
        show runOut sequentialStep (.start i (mkChild Unit (e + 1) FAILURE :: seqChildren rest)) _ = _
        rw [show seqExpected ((e + 1, FAILURE) :: rest) =
          List.replicate (e + 1) RUNNING ++ [FAILURE] from by simp [seqExpected]]
        rw [show (List.replicate (e + 1) RUNNING ++ [FAILURE]).length = (e + 1) + 1 from by simp]
        rw [show List.replicate ((e + 1) + 1) () =
          () :: (List.replicate e () ++ List.replicate 1 ()) from by
            rw [show (e + 1) + 1 = (e + 1) + 1 from rfl, List.replicate_succ, List.replicate_add]]
        rw [runOut_ok _ _ hstep]
        have hseg := seq_segment i FAILURE (seqChildren rest) e 1 (List.replicate 1 ())
        rw [show (1 : Nat) + e = e + 1 from by omega] at hseg
        rw [hseg]
        rw [show List.replicate 1 () = [()] from rfl]
        rw [runOut_ok _ _ (seq_settle_failure i (e + 1) (seqChildren rest))]
        simp [runOut, List.replicate_succ]
      | SUCCESS =>
        show runOut sequentialStep (.start i (mkChild Unit (e + 1) SUCCESS :: seqChildren rest)) _ = _
        rw [show seqExpected ((e + 1, SUCCESS) :: rest) =
          List.replicate (e + 1) RUNNING ++ seqExpected rest from by simp [seqExpected]]
        rw [show (List.replicate (e + 1) RUNNING ++ seqExpected rest).length =
          (e + (seqExpected rest).length) + 1 from by simp; omega]
        rw [List.replicate_succ, List.replicate_add]
        rw [show ((() :: (List.replicate e () ++ List.replicate (seqExpected rest).length ())) : List Unit) =
          () :: (List.replicate e () ++ List.replicate (seqExpected rest).length ()) from rfl]
        rw [runOut_ok _ _ hstep]
        have hseg := seq_segment i SUCCESS (seqChildren rest) e 1
          (List.replicate (seqExpected rest).length ())
        rw [show (1 : Nat) + e = e + 1 from by omega] at hseg
        rw [hseg]
        rw [runOut_step_eq sequentialStep _ (.start (i + 1) (seqChildren rest))
          (fun b => seq_settle_success i (e + 1) (seqChildren rest) b)]
        rw [ih (i + 1) h2]
        simp [List.replicate_succ]

/-- C1: For every sequence of child results (child `i` running for `(cs.get i).1`
ticks before settling with the non-RUNNING result `(cs.get i).2`), `sequential`
returns FAILURE on the very tick at which a child first reports FAILURE,
returns SUCCESS exactly on the tick the last child reports SUCCESS, and
forwards a child's RUNNING unchanged — the next tick re-entering the machine
re-ticks the same child instance with its per-instance tick count advanced by
one and emits no setup event (the child's setup is not re-run). -/
theorem C1_sequential_trace :
    (∀ (cs : List (Nat × TreeStatus)), (∀ p ∈ cs, p.2 ≠ RUNNING) →
      runOut sequentialStep (.start 0 (seqChildren cs))
          (List.replicate (seqExpected cs).length ()) =
        (seqExpected cs).map .ok)
    ∧ (∀ (β : Type) (i : Nat) (c : Child β) (k : Nat) (rest : List (Child β)) (b : β),
        c k b = .ok RUNNING →
        sequentialStep (.atChild i c k rest) b =
          ([.childTick i k], .ok (.atChild i c (k + 1) rest, RUNNING))) := by
  constructor
  · exact fun cs h => seq_trace_aux cs 0 h
  · intro β i c k rest b hc
    simp [sequentialStep, hc]

/-- Closed instance of the C1 theorem: children (1 tick RUNNING then SUCCESS)
and (immediate FAILURE) give the trace [RUNNING, FAILURE]; a RUNNING child at
tick count 1 is re-ticked in place. -/
theorem C1_sequential_trace_witness :
    runOut sequentialStep (.start 0 (seqChildren [(1, SUCCESS), (0, FAILURE)]))
        (List.replicate (seqExpected [(1, SUCCESS), (0, FAILURE)]).length ()) =
      (seqExpected [(1, SUCCESS), (0, FAILURE)]).map .ok
    ∧ sequentialStep (.atChild 0 (mkChild Unit 2 SUCCESS) 1 []) () =
        ([.childTick 0 1], .ok (.atChild 0 (mkChild Unit 2 SUCCESS) 2 [], RUNNING)) :=
  ⟨C1_sequential_trace.1 [(1, SUCCESS), (0, FAILURE)] (by decide),
    C1_sequential_trace.2 Unit 0 (mkChild Unit 2 SUCCESS) 1 [] () (by decide)⟩

/- ------------------------------------------------------------------
Claim C2: how many children one tick call touches.
------------------------------------------------------------------ -/

theorem tickCount_one_setup (i k : Nat) : tickCount [Ev.setup i, Ev.childTick i k] = 1 := rfl

theorem tickCount_one (i k : Nat) : tickCount [Ev.childTick i k] = 1 := rfl

/-- The events of one child tick inside `repeat`: a setup plus one tick for a
fresh instance, one tick otherwise — independent of the child's result. -/
theorem repTickChild_events {β : Type} (fac : Nat → Child β) (continueIf : TreeStatus)
    (count : Option Nat) (i k : Nat) (b : β) :
    (repTickChild fac continueIf count i k b).1 =
      if k = 0 then [Ev.setup i, Ev.childTick i 0] else [Ev.childTick i k] := by
  cases h : fac i k b with
  | error e => simp [repTickChild, h]
  | ok r => cases r <;> simp [repTickChild, h]

/-- The construction index of the child a sequential machine will touch
first on its next tick. -/
def seqCur {β : Type} : SeqState β → Nat
  | .start i _ => i
  | .atChild i _ _ _ => i
  | .complete => 0

/-- The construction index of the child a fallback machine will touch
first on its next tick. -/
def fbCur {β : Type} : FbState β → Nat
  | .start i _ => i
  | .atChild i _ _ _ => i
  | .complete => 0

theorem seqEnter_ticks {β : Type} (b : β) :
    ∀ (cs : List (Child β)) (i : Nat),
    ∃ m, m ≤ cs.length ∧ tickedChildren (seqEnter b i cs).1 = List.range' i m := by
  intro cs
  induction cs with
  | nil => intro i; exact ⟨0, by simp, rfl⟩
  | cons c rest ih =>
    intro i
    cases hc : c 0 b with
    | error e =>
      exact ⟨1, by simp, by simp [seqEnter, hc, tickedChildren, List.range']⟩
    | ok r =>
      cases r with
      | RUNNING => exact ⟨1, by simp, by simp [seqEnter, hc, tickedChildren, List.range']⟩
      | FAILURE => exact ⟨1, by simp, by simp [seqEnter, hc, tickedChildren, List.range']⟩
      | SUCCESS =>
        obtain ⟨m, hm, ht⟩ := ih (i + 1)
        refine ⟨m + 1, by simpa using hm, ?_⟩
        rcases hse : seqEnter b (i + 1) rest with ⟨evs, res⟩
        rw [hse] at ht
        simp [seqEnter, hc, hse, tickedChildren, List.range']
        simpa [tickedChildren] using ht

theorem fbEnter_ticks {β : Type} (b : β) :
    ∀ (cs : List (Child β)) (i : Nat),
    ∃ m, m ≤ cs.length ∧ tickedChildren (fbEnter b i cs).1 = List.range' i m := by
  intro cs
  induction cs with
  | nil => intro i; exact ⟨0, by simp, rfl⟩
  | cons c rest ih =>
    intro i
    cases hc : c 0 b with
    | error e =>
      exact ⟨1, by simp, by simp [fbEnter, hc, tickedChildren, List.range']⟩
    | ok r =>
      cases r with
      | RUNNING => exact ⟨1, by simp, by simp [fbEnter, hc, tickedChildren, List.range']⟩
      | SUCCESS => exact ⟨1, by simp, by simp [fbEnter, hc, tickedChildren, List.range']⟩
      | FAILURE =>
        obtain ⟨m, hm, ht⟩ := ih (i + 1)
        refine ⟨m + 1, by simpa using hm, ?_⟩
        rcases hse : fbEnter b (i + 1) rest with ⟨evs, res⟩
        rw [hse] at ht
        simp [fbEnter, hc, hse, tickedChildren, List.range']
        simpa [tickedChildren] using ht

/-- C2 counterexample: with two immediately succeeding children, the very
first tick call of `sequential` enters and ticks both children (two
`childTick` events in one call) and already returns SUCCESS — so more than
one child is ticked within a single tick call, contradicting the claim. -/
theorem C2_counterexample :
    sequentialStep (.start 0 [mkChild Unit 0 SUCCESS, mkChild Unit 0 SUCCESS]) () =
      ([.setup 0, .childTick 0 0, .setup 1, .childTick 1 0], .ok (.complete, SUCCESS))
    ∧ tickCount [Ev.setup 0, Ev.childTick 0 0, Ev.setup 1, Ev.childTick 1 0] = 2 :=
  ⟨rfl, rfl⟩

/-- C2 amended: within one tick call, `repeat` ticks at most one child;
`sequential` and `fallback` tick children in construction order starting at
the cursor (a consecutive run of indices), but a child's SUCCESS
(resp. FAILURE for fallback) makes the next child be ticked within the same
call, so a single call may tick several children. -/
theorem C2_one_child_per_tick :
    (∀ (β : Type) (fac : Nat → Child β) (continueIf : TreeStatus) (count : Option Nat)
      (s : RepState) (b : β), tickCount (repeatStep fac continueIf count s b).1 ≤ 1)
    ∧ (∀ (β : Type) (s : SeqState β) (b : β),
      ∃ m, tickedChildren (sequentialStep s b).1 = List.range' (seqCur s) m)
    ∧ (∀ (β : Type) (s : FbState β) (b : β),
      ∃ m, tickedChildren (fallbackStep s b).1 = List.range' (fbCur s) m) := by
  refine ⟨?_, ?_, ?_⟩
  · intro β fac continueIf count s b
    have hev : ∀ i k, tickCount (if k = 0 then [Ev.setup i, Ev.childTick i 0]
        else [Ev.childTick i k]) ≤ 1 := by
      intro i k
      split <;> simp [tickCount]
    cases s with
    | start =>
      cases count with
      | none =>
        show tickCount (repTickChild fac continueIf none 0 0 b).1 ≤ 1
        rw [repTickChild_events]
        exact hev 0 0
      | some n =>
        cases n with
        | zero => simp [repeatStep, tickCount]
        | succ n =>
          show tickCount (repTickChild fac continueIf (some (n + 1)) 0 0 b).1 ≤ 1
          rw [repTickChild_events]
          exact hev 0 0
    | between i =>
      show tickCount (repTickChild fac continueIf count i 0 b).1 ≤ 1
      rw [repTickChild_events]
      exact hev i 0
    | inChild i k =>
      show tickCount (repTickChild fac continueIf count i k b).1 ≤ 1
      rw [repTickChild_events]
      exact hev i k
    | complete => simp [repeatStep, tickCount]
  · intro β s b
    cases s with
    | start i cs =>
      obtain ⟨m, _, ht⟩ := seqEnter_ticks b cs i
      exact ⟨m, ht⟩
    | atChild i c k rest =>
      cases hc : c k b with
      | error e => exact ⟨1, by simp [sequentialStep, hc, tickedChildren, List.range', seqCur]⟩
      | ok r =>
        cases r with
        | RUNNING => exact ⟨1, by simp [sequentialStep, hc, tickedChildren, List.range', seqCur]⟩
        | FAILURE => exact ⟨1, by simp [sequentialStep, hc, tickedChildren, List.range', seqCur]⟩
        | SUCCESS =>
          obtain ⟨m, _, ht⟩ := seqEnter_ticks b rest (i + 1)
          refine ⟨m + 1, ?_⟩
          rcases hse : seqEnter b (i + 1) rest with ⟨evs, res⟩
          rw [hse] at ht
          simp [sequentialStep, hc, hse, tickedChildren, List.range', seqCur]
          simpa [tickedChildren] using ht
    | complete => exact ⟨0, rfl⟩
  · intro β s b
    cases s with
    | start i cs =>
      obtain ⟨m, _, ht⟩ := fbEnter_ticks b cs i
      exact ⟨m, ht⟩
    | atChild i c k rest =>
      cases hc : c k b with
      | error e => exact ⟨1, by simp [fallbackStep, hc, tickedChildren, List.range', fbCur]⟩
      | ok r =>
        cases r with
        | RUNNING => exact ⟨1, by simp [fallbackStep, hc, tickedChildren, List.range', fbCur]⟩
        | SUCCESS => exact ⟨1, by simp [fallbackStep, hc, tickedChildren, List.range', fbCur]⟩
        | FAILURE =>
          obtain ⟨m, _, ht⟩ := fbEnter_ticks b rest (i + 1)
          refine ⟨m + 1, ?_⟩
          rcases hse : fbEnter b (i + 1) rest with ⟨evs, res⟩
          rw [hse] at ht
          simp [fallbackStep, hc, hse, tickedChildren, List.range', fbCur]
          simpa [tickedChildren] using ht
    | complete => exact ⟨0, rfl⟩

/- ------------------------------------------------------------------
Claim C3: the repeat/retry trace.
------------------------------------------------------------------ -/

theorem runOut_ok2 {σ β : Type} (step : σ → β → List Ev × Except PyError (σ × TreeStatus))
    {s : σ} {b : β} (bs : List β) {s' : σ} {out : TreeStatus}
    (h : (step s b).2 = .ok (s', out)) :
    runOut step s (b :: bs) = .ok out :: runOut step s' bs := by
  rw [runOut_cons, h]

/-- A repeat factory whose `i`-th instance runs for `d i` ticks and then
settles with `r i`. -/
def facD (d : Nat → Nat) (r : Nat → TreeStatus) : Nat → Child Unit :=
  fun j => mkChild Unit (d j) (r j)

/-- The tick results the spec prescribes for a bounded `repeat` processing
repetitions `i, i+1, ...` with `rem` repetitions left before the bound:
repetition `i` contributes its `RUNNING` ticks and settles; a settled result
equal to the continuation result yields `RUNNING` and moves on (unless the
bound is reached, in which case it is returned as final); a differing result
is returned immediately as final. -/
def repExpected (continueIf : TreeStatus) (d : Nat → Nat) (r : Nat → TreeStatus) :
    Nat → Nat → List TreeStatus
  | _, 0 => []
  | i, 1 => List.replicate (d i) RUNNING ++ [r i]
  | i, m + 2 => List.replicate (d i) RUNNING ++
      (if r i = continueIf then RUNNING :: repExpected continueIf d r (i + 1) (m + 1)
       else [r i])

/-- The tick results the spec prescribes for an unbounded `repeat` whose
repetitions `i, ..., i + m - 1` settle with the continuation result and whose
repetition `i + m` settles with a differing result, returned as final. -/
def repExpectedU (continueIf : TreeStatus) (d : Nat → Nat) (r : Nat → TreeStatus) :
    Nat → Nat → List TreeStatus
  | i, 0 => List.replicate (d i) RUNNING ++ [r i]
  | i, m + 1 => List.replicate (d i) RUNNING ++ RUNNING ::
      repExpectedU continueIf d r (i + 1) m

theorem repHandle_last (cont : TreeStatus) (i : Nat) (r : TreeStatus) :
    repHandle cont (some (i + 1)) i r = (.complete, r) := by
  unfold repHandle
  by_cases h : r = cont
  · rw [if_pos h]
    show (if (i + 1) - 1 ≤ i then ((RepState.complete, r) : RepState × TreeStatus)
      else (.between (i + 1), RUNNING)) = (.complete, r)
    rw [if_pos (by omega)]
  · rw [if_neg h]

theorem repHandle_continue (cont : TreeStatus) (n i : Nat) (hn : i + 1 < n) (r : TreeStatus)
    (hr : r = cont) : repHandle cont (some n) i r = (.between (i + 1), RUNNING) := by
  unfold repHandle
  rw [if_pos hr]
  show (if n - 1 ≤ i then ((RepState.complete, r) : RepState × TreeStatus)
    else (.between (i + 1), RUNNING)) = _
  rw [if_neg (by omega)]

theorem repHandle_continue_none (cont : TreeStatus) (i : Nat) (r : TreeStatus)
    (hr : r = cont) : repHandle cont none i r = (.between (i + 1), RUNNING) := by
  unfold repHandle
  rw [if_pos hr]

theorem repHandle_differ (cont : TreeStatus) (cnt : Option Nat) (i : Nat) (r : TreeStatus)
    (h : r ≠ cont) : repHandle cont cnt i r = (.complete, r) := by
  unfold repHandle
  rw [if_neg h]

/-- Settling tick of repetition `i` (tick count has reached `d i`). -/
theorem rep_settle (d : Nat → Nat) (r : Nat → TreeStatus) (cont : TreeStatus)
    (cnt : Option Nat) (i : Nat) (hri : r i ≠ RUNNING) :
    (repeatStep (facD d r) cont cnt (.inChild i (d i)) ()).2 =
      .ok (repHandle cont cnt i (r i)) := by
  have hc : facD d r i (d i) () = .ok (r i) := mkChild_settled _ _ _
  cases hcase : r i with
  | RUNNING => exact absurd hcase hri
  | SUCCESS =>
    rw [hcase] at hc
    simp [repeatStep, repTickChild, hc, hcase]
  | FAILURE =>
    rw [hcase] at hc
    simp [repeatStep, repTickChild, hc, hcase]

/-- Entering repetition `i` when it settles on its very first tick. -/
theorem rep_enter_settle (d : Nat → Nat) (r : Nat → TreeStatus) (cont : TreeStatus)
    (cnt : Option Nat) (i : Nat) (hd : d i = 0) (hri : r i ≠ RUNNING) :
    (repeatStep (facD d r) cont cnt (.between i) ()).2 =
      .ok (repHandle cont cnt i (r i)) := by
  have hc : facD d r i 0 () = .ok (r i) := by
    unfold facD mkChild
    rw [hd]
    simp
  cases hcase : r i with
  | RUNNING => exact absurd hcase hri
  | SUCCESS =>
    rw [hcase] at hc
    simp [repeatStep, repTickChild, hc, hcase]
  | FAILURE =>
    rw [hcase] at hc
    simp [repeatStep, repTickChild, hc, hcase]

/-- Entering repetition `i` when it keeps running. -/
theorem rep_enter_running (d : Nat → Nat) (r : Nat → TreeStatus) (cont : TreeStatus)
    (cnt : Option Nat) (i : Nat) (hd : 0 < d i) :
    repeatStep (facD d r) cont cnt (.between i) () =
      ([Ev.setup i, Ev.childTick i 0], .ok (.inChild i 1, RUNNING)) := by
  have hc : facD d r i 0 () = .ok RUNNING := mkChild_running _ _ _ _ hd
  simp [repeatStep, repTickChild, hc]

/-- While repetition `i` keeps returning `RUNNING`, `repeat` forwards
`RUNNING`, re-ticking the same instance. -/
theorem rep_segment (d : Nat → Nat) (r : Nat → TreeStatus) (cont : TreeStatus)
    (cnt : Option Nat) (i : Nat) :
    ∀ (j k : Nat), k + j ≤ d i → ∀ (bs : List Unit),
    runOut (repeatStep (facD d r) cont cnt) (.inChild i k) (List.replicate j () ++ bs) =
      List.replicate j (.ok RUNNING) ++
        runOut (repeatStep (facD d r) cont cnt) (.inChild i (k + j)) bs := by
  intro j
  induction j with
  | zero => intro k _ bs; simp
  | succ j ih =>
    intro k hk bs
    have hc : facD d r i k () = .ok RUNNING := mkChild_running _ _ _ _ (by omega)
    have hstep : (repeatStep (facD d r) cont cnt (.inChild i k) ()).2 =
        .ok (.inChild i (k + 1), RUNNING) := by
      simp [repeatStep, repTickChild, hc]
    rw [List.replicate_succ, List.cons_append, runOut_ok2 _ _ hstep, List.replicate_succ,
      List.cons_append]
    have hih := ih (k + 1) (by omega) bs
    rw [show (k + 1) + j = k + (j + 1) from by omega] at hih
    rw [hih]

/-- One full repetition: `d i` forwarded `RUNNING`s, then the settle tick,
whose output and successor state are given by `repHandle`. -/
theorem rep_run_one (d : Nat → Nat) (r : Nat → TreeStatus) (cont : TreeStatus)
    (cnt : Option Nat) (i : Nat) (hri : r i ≠ RUNNING) (bs : List Unit) :
    runOut (repeatStep (facD d r) cont cnt) (.between i)
        (List.replicate (d i) () ++ () :: bs) =
      List.replicate (d i) (.ok RUNNING) ++
        .ok (repHandle cont cnt i (r i)).2 ::
          runOut (repeatStep (facD d r) cont cnt) (repHandle cont cnt i (r i)).1 bs := by
  rcases hph : repHandle cont cnt i (r i) with ⟨s', out⟩
  cases hd : d i with
  | zero =>
    simp only [List.replicate_zero, List.nil_append]
    have hstep := rep_enter_settle d r cont cnt i hd hri
    rw [hph] at hstep
    rw [runOut_ok2 _ bs hstep]
  | succ e =>
    rw [List.replicate_succ, List.cons_append, List.replicate_succ, List.cons_append]
    have hstep := rep_enter_running d r cont cnt i (by omega)
    rw [runOut_ok _ _ hstep]
    have hseg := rep_segment d r cont cnt i e 1 (by omega) (() :: bs)
    rw [hseg]
    have hsettle := rep_settle d r cont cnt i hri
    rw [hd, hph] at hsettle
    rw [show (1 : Nat) + e = e + 1 from by omega]
    rw [runOut_ok2 _ bs hsettle]

theorem rep_trace_aux (d : Nat → Nat) (r : Nat → TreeStatus) (cont : TreeStatus)
    (hr : ∀ i, r i ≠ RUNNING) :
    ∀ (rem i : Nat), 1 ≤ rem →
    runOut (repeatStep (facD d r) cont (some (i + rem))) (.between i)
        (List.replicate (repExpected cont d r i rem).length ()) =
      (repExpected cont d r i rem).map .ok := by
  intro rem
  induction rem with
  | zero => intro i h; omega
  | succ m ih =>
    intro i _
    cases m with
    | zero =>
      simp only [Nat.zero_add]
      have hE : repExpected cont d r i 1 = List.replicate (d i) RUNNING ++ [r i] := rfl
      rw [hE]
      rw [show (List.replicate (d i) RUNNING ++ [r i]).length = d i + 1 from by simp]
      rw [List.replicate_add]
      rw [show List.replicate 1 () = (() :: ([] : List Unit)) from rfl]
      have hrun := rep_run_one d r cont (some (i + 1)) i (hr i) []
      rw [repHandle_last] at hrun
      rw [hrun]
      simp [runOut]
    | succ m' =>
      by_cases hri : r i = cont
      · have hE : repExpected cont d r i (m' + 1 + 1) = List.replicate (d i) RUNNING ++
            RUNNING :: repExpected cont d r (i + 1) (m' + 1) := by
          show List.replicate (d i) RUNNING ++
              (if r i = cont then RUNNING :: repExpected cont d r (i + 1) (m' + 1)
               else [r i]) = _
          rw [if_pos hri]
        rw [hE]
        rw [show (List.replicate (d i) RUNNING ++
            RUNNING :: repExpected cont d r (i + 1) (m' + 1)).length =
          d i + (1 + (repExpected cont d r (i + 1) (m' + 1)).length) from by simp; omega]
        rw [List.replicate_add, List.replicate_add]
        rw [show List.replicate 1 () = (() :: ([] : List Unit)) from rfl]
        rw [show ((() :: ([] : List Unit)) ++
          List.replicate (repExpected cont d r (i + 1) (m' + 1)).length ()) =
          () :: List.replicate (repExpected cont d r (i + 1) (m' + 1)).length () from rfl]
        have hrun := rep_run_one d r cont (some (i + (m' + 1 + 1))) i (hr i)
          (List.replicate (repExpected cont d r (i + 1) (m' + 1)).length ())
        rw [repHandle_continue cont (i + (m' + 1 + 1)) i (by omega) (r i) hri] at hrun
        rw [hrun]
        have hih := ih (i + 1) (by omega)
        rw [show (i + 1) + (m' + 1) = i + (m' + 1 + 1) from by omega] at hih
        rw [hih]
        simp
      · have hE : repExpected cont d r i (m' + 1 + 1) =
            List.replicate (d i) RUNNING ++ [r i] := by
          show List.replicate (d i) RUNNING ++
              (if r i = cont then RUNNING :: repExpected cont d r (i + 1) (m' + 1)
               else [r i]) = _
          rw [if_neg hri]
        rw [hE]
        rw [show (List.replicate (d i) RUNNING ++ [r i]).length = d i + 1 from by simp]
        rw [List.replicate_add]
        rw [show List.replicate 1 () = (() :: ([] : List Unit)) from rfl]
        have hrun := rep_run_one d r cont (some (i + (m' + 1 + 1))) i (hr i) []
        rw [repHandle_differ cont _ i (r i) hri] at hrun
        rw [hrun]
        simp [runOut]

theorem repU_trace_aux (d : Nat → Nat) (r : Nat → TreeStatus) (cont : TreeStatus)
    (hr : ∀ i, r i ≠ RUNNING) :
    ∀ (m i : Nat), (∀ j, j < m → r (i + j) = cont) → r (i + m) ≠ cont →
    runOut (repeatStep (facD d r) cont none) (.between i)
        (List.replicate (repExpectedU cont d r i m).length ()) =
      (repExpectedU cont d r i m).map .ok := by
  intro m
  induction m with
  | zero =>
    intro i _ hdiff
    rw [show i + 0 = i from rfl] at hdiff
    have hE : repExpectedU cont d r i 0 = List.replicate (d i) RUNNING ++ [r i] := rfl
    rw [hE]
    rw [show (List.replicate (d i) RUNNING ++ [r i]).length = d i + 1 from by simp]
    rw [List.replicate_add]
    rw [show List.replicate 1 () = (() :: ([] : List Unit)) from rfl]
    have hrun := rep_run_one d r cont none i (hr i) []
    rw [repHandle_differ cont none i (r i) hdiff] at hrun
    rw [hrun]
    simp [runOut]
  | succ m ih =>
    intro i hmatch hdiff
    have hri : r i = cont := by
      have := hmatch 0 (by omega)
      simpa using this
    have hE : repExpectedU cont d r i (m + 1) = List.replicate (d i) RUNNING ++
        RUNNING :: repExpectedU cont d r (i + 1) m := rfl
    rw [hE]
    rw [show (List.replicate (d i) RUNNING ++
        RUNNING :: repExpectedU cont d r (i + 1) m).length =
      d i + (1 + (repExpectedU cont d r (i + 1) m).length) from by simp; omega]
    rw [List.replicate_add, List.replicate_add]
    rw [show List.replicate 1 () = (() :: ([] : List Unit)) from rfl]
    rw [show ((() :: ([] : List Unit)) ++
      List.replicate (repExpectedU cont d r (i + 1) m).length ()) =
      () :: List.replicate (repExpectedU cont d r (i + 1) m).length () from rfl]
    have hrun := rep_run_one d r cont none i (hr i)
      (List.replicate (repExpectedU cont d r (i + 1) m).length ())
    rw [repHandle_continue_none cont i (r i) hri] at hrun
    rw [hrun]
    have hih := ih (i + 1) (fun j hj => by
        have := hmatch (j + 1) (by omega)
        rw [show i + (j + 1) = (i + 1) + j from by omega] at this
        exact this)
      (by rw [show (i + 1) + m = i + (m + 1) from by omega]; exact hdiff)
    rw [hih]
    simp

/-- With a bound that is not `some 0`, the first send from `start` behaves
exactly like entering repetition 0. -/
theorem rep_start_eq_between0 {β : Type} (fac : Nat → Child β) (cont : TreeStatus)
    (cnt : Option Nat) (h : cnt ≠ some 0) (b : β) :
    (repeatStep fac cont cnt .start b).2 = (repeatStep fac cont cnt (.between 0) b).2 := by
  cases cnt with
  | none => rfl
  | some n =>
    cases n with
    | zero => exact absurd rfl h
    | succ n => rfl

/-- For `retry` (continuation FAILURE) with every repetition failing, the
prescribed trace is a block of `RUNNING`s followed by a single final
`FAILURE`. -/
theorem repExpected_all_fail (d : Nat → Nat) :
    ∀ (n i : Nat), 1 ≤ n →
    ∃ p, repExpected FAILURE d (fun _ => FAILURE) i n =
      List.replicate p RUNNING ++ [FAILURE] := by
  intro n
  induction n with
  | zero => intro i h; omega
  | succ m ih =>
    intro i _
    cases m with
    | zero => exact ⟨d i, rfl⟩
    | succ m' =>
      obtain ⟨p, hp⟩ := ih (i + 1) (by omega)
      refine ⟨d i + (1 + p), ?_⟩
      show List.replicate (d i) RUNNING ++
          (if (FAILURE : TreeStatus) = FAILURE then
            RUNNING :: repExpected FAILURE d (fun _ => FAILURE) (i + 1) (m' + 1)
           else [FAILURE]) = _
      rw [if_pos rfl, hp, List.replicate_add, List.replicate_add]
      simp

/-- For `retry` with the first success at repetition `i + m`, the prescribed
trace is a block of `RUNNING`s followed by a single final `SUCCESS`. -/
theorem repExpectedU_first_success (d : Nat → Nat) (r : Nat → TreeStatus) :
    ∀ (m i : Nat), (∀ j, j < m → r (i + j) = FAILURE) → r (i + m) = SUCCESS →
    ∃ p, repExpectedU FAILURE d r i m = List.replicate p RUNNING ++ [SUCCESS] := by
  intro m
  induction m with
  | zero =>
    intro i _ hs
    have hs' : r i = SUCCESS := hs
    refine ⟨d i, ?_⟩
    show List.replicate (d i) RUNNING ++ [r i] = _
    rw [hs']
  | succ m ih =>
    intro i hmatch hs
    obtain ⟨p, hp⟩ := ih (i + 1)
      (fun j hj => by
        have := hmatch (j + 1) (by omega)
        rw [show i + (j + 1) = (i + 1) + j from by omega] at this
        exact this)
      (by rw [show (i + 1) + m = i + (m + 1) from by omega]; exact hs)
    refine ⟨d i + (1 + p), ?_⟩
    show List.replicate (d i) RUNNING ++ RUNNING :: repExpectedU FAILURE d r (i + 1) m = _
    rw [hp, List.replicate_add, List.replicate_add]
    simp

/-- One child tick of `repeat` with continuation FAILURE and no bound never
produces a FAILURE output: a failing child triggers another repetition
(output RUNNING), a succeeding child ends the node with SUCCESS. -/
theorem repTickChild_no_failure {β : Type} (fac : Nat → Child β) (i k : Nat) (b : β) :
    ∀ {evs : List Ev} {s' : RepState} {out : TreeStatus},
    repTickChild fac FAILURE none i k b = (evs, .ok (s', out)) → out ≠ FAILURE := by
  intro evs s' out h
  unfold repTickChild at h
  cases hc : fac i k b with
  | error e =>
    rw [hc] at h
    have h2 : (Except.error e : Except PyError (RepState × TreeStatus)) = .ok (s', out) :=
      congrArg Prod.snd h
    simp at h2
  | ok r =>
    rw [hc] at h
    cases r with
    | RUNNING =>
      have h2 : (Except.ok (RepState.inChild i (k + 1), RUNNING) :
          Except PyError (RepState × TreeStatus)) = .ok (s', out) := congrArg Prod.snd h
      simp at h2
      obtain ⟨h3, h4⟩ := h2
      subst h4
      decide
    | SUCCESS =>
      have h2 : (Except.ok (repHandle FAILURE none i SUCCESS) :
          Except PyError (RepState × TreeStatus)) = .ok (s', out) := congrArg Prod.snd h
      rw [repHandle_differ FAILURE none i SUCCESS (by decide)] at h2
      simp at h2
      obtain ⟨h3, h4⟩ := h2
      subst h4
      decide
    | FAILURE =>
      have h2 : (Except.ok (repHandle FAILURE none i FAILURE) :
          Except PyError (RepState × TreeStatus)) = .ok (s', out) := congrArg Prod.snd h
      rw [repHandle_continue_none FAILURE i FAILURE rfl] at h2
      simp at h2
      obtain ⟨h3, h4⟩ := h2
      subst h4
      decide

/-- C3 counterexample: `retry` with bound `count = 0` — per the claim, the
bound is reached "while still matching", so the node should return the
continuation result FAILURE; the code's `result` variable is initialised to
SUCCESS and the empty repetition iterator is never entered, so the first tick
returns SUCCESS, which differs from the claimed FAILURE. -/
theorem C3_repeat_count_zero_counterexample :
    runOut (retryStep (fun _ => mkChild Unit 0 FAILURE) (some 0)) .start [()] =
      [.ok SUCCESS]
    ∧ ((.ok SUCCESS : Except PyError TreeStatus) ≠ .ok FAILURE) :=
  ⟨by decide, by decide⟩

/-- C3 amended: for every continuation result, bound `N ≥ 1` or no bound, and
every sequence of per-repetition settling results (repetition `i` runs `d i`
ticks and settles with `r i ≠ RUNNING`), `repeat` instantiates a fresh child
per repetition and ticks it to its settled result; it continues (emitting
RUNNING) while the settled result equals the continuation result and the
bound is not reached, returns the first differing settled result immediately
as its final result, and returns the continuation result as final when the
bound is reached while still matching (conjuncts 1-2, via the prescribed
traces `repExpected` / `repExpectedU`); unbounded `retry` never outputs
FAILURE (conjunct 3); with `count = some 0` the node returns SUCCESS on its
first tick without instantiating any child (conjunct 4, the amendment); and
for `retry` the prescribed trace ends in FAILURE exactly after the `N`
consecutive failures, or in SUCCESS at the first success (conjuncts 5-6). -/
theorem C3_repeat_retry_trace :
    (∀ (d : Nat → Nat) (r : Nat → TreeStatus) (cont : TreeStatus) (n : Nat),
      1 ≤ n → (∀ i, r i ≠ RUNNING) →
      runOut (repeatStep (facD d r) cont (some n)) .start
          (List.replicate (repExpected cont d r 0 n).length ()) =
        (repExpected cont d r 0 n).map .ok)
    ∧ (∀ (d : Nat → Nat) (r : Nat → TreeStatus) (cont : TreeStatus) (m : Nat),
      (∀ j, j < m → r j = cont) → r m ≠ cont → (∀ i, r i ≠ RUNNING) →
      runOut (repeatStep (facD d r) cont none) .start
          (List.replicate (repExpectedU cont d r 0 m).length ()) =
        (repExpectedU cont d r 0 m).map .ok)
    ∧ (∀ (β : Type) (fac : Nat → Child β) (s : RepState) (b : β)
        (evs : List Ev) (s' : RepState) (out : TreeStatus),
        repeatStep fac FAILURE none s b = (evs, .ok (s', out)) → out ≠ FAILURE)
    ∧ (∀ (β : Type) (fac : Nat → Child β) (cont : TreeStatus) (b : β),
        repeatStep fac cont (some 0) .start b = ([], .ok (.complete, SUCCESS)))
    ∧ (∀ (d : Nat → Nat) (n : Nat), 1 ≤ n →
      ∃ p, repExpected FAILURE d (fun _ => FAILURE) 0 n =
        List.replicate p RUNNING ++ [FAILURE])
    ∧ (∀ (d : Nat → Nat) (r : Nat → TreeStatus) (m : Nat),
      (∀ j, j < m → r j = FAILURE) → r m = SUCCESS →
      ∃ p, repExpectedU FAILURE d r 0 m = List.replicate p RUNNING ++ [SUCCESS]) := by
  refine ⟨?_, ?_, ?_, ?_, ?_, ?_⟩
  · intro d r cont n hn hr
    have hne : (some n : Option Nat) ≠ some 0 := by
      simp
      omega
    rw [runOut_step_eq _ _ (.between 0)
      (fun b => rep_start_eq_between0 (facD d r) cont (some n) hne b)]
    have := rep_trace_aux d r cont hr n 0 hn
    rw [show (0 : Nat) + n = n from by omega] at this
    exact this
  · intro d r cont m hmatch hdiff hr
    have hne : (none : Option Nat) ≠ some 0 := by simp
    rw [runOut_step_eq _ _ (.between 0)
      (fun b => rep_start_eq_between0 (facD d r) cont none hne b)]
    exact repU_trace_aux d r cont hr m 0
      (fun j hj => by rw [Nat.zero_add]; exact hmatch j hj)
      (by rw [Nat.zero_add]; exact hdiff)
  · intro β fac s b evs s' out h
    cases s with
    | start => exact repTickChild_no_failure fac 0 0 b h
    | between i => exact repTickChild_no_failure fac i 0 b h
    | inChild i k => exact repTickChild_no_failure fac i k b h
    | complete => simp [repeatStep] at h
  · intro β fac cont b
    rfl
  · exact fun d n hn => repExpected_all_fail d n 0 hn
  · intro d r m hmatch hs
    exact repExpectedU_first_success d r m 0
      (fun j hj => by rw [Nat.zero_add]; exact hmatch j hj)
      (by rw [Nat.zero_add]; exact hs)

/-- Closed instance of the C3 theorem: bounded redo over two immediately
succeeding repetitions, unbounded retry with one failure then a success, the
no-FAILURE fact at a concrete state, the `count = 0` behaviour, and the two
retry trace shapes. -/
theorem C3_repeat_retry_trace_witness :
    runOut (repeatStep (facD (fun _ => 1) (fun _ => SUCCESS)) SUCCESS (some 2)) .start
        (List.replicate (repExpected SUCCESS (fun _ => 1) (fun _ => SUCCESS) 0 2).length ()) =
      (repExpected SUCCESS (fun _ => 1) (fun _ => SUCCESS) 0 2).map .ok
    ∧ runOut (repeatStep (facD (fun _ => 0) (fun j => if j = 0 then FAILURE else SUCCESS))
          FAILURE none) .start
        (List.replicate (repExpectedU FAILURE (fun _ => 0)
          (fun j => if j = 0 then FAILURE else SUCCESS) 0 1).length ()) =
      (repExpectedU FAILURE (fun _ => 0)
        (fun j => if j = 0 then FAILURE else SUCCESS) 0 1).map .ok
    ∧ ((RUNNING : TreeStatus) ≠ FAILURE)
    ∧ repeatStep (fun _ => mkChild Unit 1 SUCCESS) SUCCESS (some 0) .start () =
        ([], .ok (.complete, SUCCESS))
    ∧ (∃ p, repExpected FAILURE (fun _ => 2) (fun _ => FAILURE) 0 3 =
        List.replicate p RUNNING ++ [FAILURE])
    ∧ (∃ p, repExpectedU FAILURE (fun _ => 0)
        (fun j => if j = 0 then FAILURE else SUCCESS) 0 1 =
        List.replicate p RUNNING ++ [SUCCESS]) := by
  refine ⟨?_, ?_, ?_, ?_, ?_, ?_⟩
  · exact C3_repeat_retry_trace.1 (fun _ => 1) (fun _ => SUCCESS) SUCCESS 2 (by decide)
      (fun i => by simp)
  · exact C3_repeat_retry_trace.2.1 (fun _ => 0) (fun j => if j = 0 then FAILURE else SUCCESS)
      FAILURE 1
      (fun j hj => by
        have : j = 0 := by omega
        subst this
        decide)
      (by decide) (fun i => by
        by_cases h : i = 0 <;> simp [h])
  · exact C3_repeat_retry_trace.2.2.1 Unit (fun _ => mkChild Unit 0 FAILURE)
      (.between 0) () [Ev.setup 0, Ev.childTick 0 0] (.between 1) RUNNING (by rfl)
  · exact C3_repeat_retry_trace.2.2.2.1 Unit (fun _ => mkChild Unit 1 SUCCESS) SUCCESS ()
  · exact C3_repeat_retry_trace.2.2.2.2.1 (fun _ => 2) 3 (by decide)
  · exact C3_repeat_retry_trace.2.2.2.2.2 (fun _ => 0)
      (fun j => if j = 0 then FAILURE else SUCCESS) 1
      (fun j hj => by
        have : j = 0 := by omega
        subst this
        decide)
      (by decide)

/- ------------------------------------------------------------------
Claim C4: parallel ticks every child and aggregates with the default policy.
------------------------------------------------------------------ -/

theorem aggLoop_spec (maxF : Nat) :
    ∀ (rs : List TreeStatus) (acc : Nat),
    aggLoop maxF rs acc =
      if RUNNING ∈ rs then RUNNING
      else if maxF < acc + rs.count FAILURE then FAILURE else SUCCESS := by
  intro rs
  induction rs with
  | nil => intro acc; simp [aggLoop]
  | cons r rest ih =>
    intro acc
    cases r with
    | RUNNING => simp [aggLoop]
    | FAILURE =>
      rw [show aggLoop maxF (FAILURE :: rest) acc = aggLoop maxF rest (acc + 1) from rfl, ih]
      by_cases hm : RUNNING ∈ rest
      · simp [hm]
      · by_cases hlt : maxF < acc + 1 + List.count FAILURE rest
        · simp [hm, hlt, List.count_cons,
            show maxF < acc + (List.count FAILURE rest + 1) from by omega]
        · simp [hm, hlt, List.count_cons,
            show ¬maxF < acc + (List.count FAILURE rest + 1) from by omega]
    | SUCCESS =>
      rw [show aggLoop maxF (SUCCESS :: rest) acc = aggLoop maxF rest acc from rfl, ih]
      by_cases hm : RUNNING ∈ rest
      · simp [hm]
      · simp [hm, List.count_cons]

theorem parCollect_pure {β : Type} (k : Nat) (b : β) :
    ∀ (fs : List (Nat → β → TreeStatus)) (i : Nat),
    parCollect k b i (fs.map pureChild) =
      ((List.range' i fs.length).map fun j => Ev.childTick j k,
       .ok (fs.map fun f => f k b)) := by
  intro fs
  induction fs with
  | nil => intro i; rfl
  | cons f rest ih =>
    intro i
    rw [List.map_cons]
    simp only [parCollect, pureChild]
    rw [ih (i + 1)]
    simp [List.range', Except.map]

/-- An un-done parallel node ticks every child (in construction order, all at
the same shared tick count) and aggregates the full result list. -/
theorem parallelStep_all {β : Type} (agg : List TreeStatus → TreeStatus)
    (fs : List (Nat → β → TreeStatus)) (k : Nat) (b : β) :
    parallelStep agg (fs.map pureChild) ⟨false, k⟩ b =
      ((List.range' 0 fs.length).map fun j => Ev.childTick j k,
       .ok (⟨decide (agg (fs.map fun f => f k b) ≠ RUNNING), k + 1⟩,
         agg (fs.map fun f => f k b))) := by
  simp [parallelStep, parCollect_pure]

/-- C4: every tick of a not-yet-terminal parallel node ticks all children,
and the default aggregation with tolerance 0 returns RUNNING if any child
returned RUNNING, else FAILURE if more than the tolerance of children
returned FAILURE, else SUCCESS; in particular [RUNNING, FAILURE] gives
RUNNING, [SUCCESS, FAILURE] gives FAILURE and [SUCCESS, SUCCESS] gives
SUCCESS. -/
theorem C4_parallel_default_aggregation :
    (∀ (rs : List TreeStatus) (maxF : Nat),
      any_running_is_running_allow_max_failures_failures rs maxF =
        if RUNNING ∈ rs then RUNNING
        else if maxF < rs.count FAILURE then FAILURE else SUCCESS)
    ∧ (∀ (β : Type) (fs : List (Nat → β → TreeStatus)) (k : Nat) (b : β),
      parallelStepDefault (fs.map pureChild) ⟨false, k⟩ b =
        ((List.range' 0 fs.length).map fun j => Ev.childTick j k,
         .ok (⟨decide (any_running_is_running_allow_max_failures_failures
             (fs.map fun f => f k b) 0 ≠ RUNNING), k + 1⟩,
           any_running_is_running_allow_max_failures_failures (fs.map fun f => f k b) 0)))
    ∧ runOut (parallelStepDefault [pureChild fun _ _ => RUNNING, pureChild fun _ _ => FAILURE])
        ⟨false, 0⟩ [()] = [.ok RUNNING]
    ∧ runOut (parallelStepDefault [pureChild fun _ _ => SUCCESS, pureChild fun _ _ => FAILURE])
        ⟨false, 0⟩ [()] = [.ok FAILURE]
    ∧ runOut (parallelStepDefault [pureChild fun _ _ => SUCCESS, pureChild fun _ _ => SUCCESS])
        ⟨false, 0⟩ [()] = [.ok SUCCESS] := by
  refine ⟨?_, ?_, by decide, by decide, by decide⟩
  · intro rs maxF
    have := aggLoop_spec maxF rs 0
    rw [Nat.zero_add] at this
    exact this
  · intro β fs k b
    exact parallelStep_all _ fs k b

/- ------------------------------------------------------------------
Claim C5: failsafe and the blackboard it gives to the check.
------------------------------------------------------------------ -/

/-- C5 evaluation at the failing input: `failsafe` with check `b == 0`, an
always-RUNNING nominal child and an always-SUCCESS failure child, ticked with
blackboard values 0 then 1.  The claim says the second tick must evaluate the
check on the blackboard given to that tick (1, so false), instantiate the
failure child and return its SUCCESS.  The code's nominal loop yields with a
bare `yield result` and never reassigns its local `blackboard`, so the second
tick evaluates the check on the stale first-tick value 0, ticks the nominal
child again and returns RUNNING; the failure child's tick function is never
invoked (the only event of the second call is a nominal tick). -/
theorem C5_failsafe_stale_blackboard :
    runOut (failsafeStep (fun b => b == 0) (pureChild fun _ _ => RUNNING)
        (pureChild fun _ _ => SUCCESS)) .start [0, 1] =
      [.ok RUNNING, .ok RUNNING]
    ∧ failsafeStep (fun b => b == 0) (pureChild fun _ _ => RUNNING)
        (pureChild fun _ _ => SUCCESS) (.nominalSt 0 1) 1 =
      ([Ev.childTick 0 1], .ok (.nominalSt 0 2, RUNNING))
    ∧ ((fun (b : Nat) => b == 0) 1) = false :=
  ⟨by decide, rfl, rfl⟩

/- ------------------------------------------------------------------
Claim C6: single-shot composites raise on every tick after a terminal result.
------------------------------------------------------------------ -/

theorem seqEnter_terminal {β : Type} (b : β) :
    ∀ (cs : List (Child β)) (i : Nat) (s' : SeqState β) (out : TreeStatus),
    (seqEnter b i cs).2 = .ok (s', out) → out ≠ RUNNING → s' = .complete := by
  intro cs
  induction cs with
  | nil =>
    intro i s' out h _
    simp [seqEnter] at h
    exact h.1.symm
  | cons c rest ih =>
    intro i s' out h hout
    cases hc : c 0 b with
    | error e => simp [seqEnter, hc] at h
    | ok r =>
      cases r with
      | RUNNING =>
        simp [seqEnter, hc] at h
        exact absurd h.2.symm hout
      | FAILURE =>
        simp [seqEnter, hc] at h
        exact h.1.symm
      | SUCCESS =>
        have heq : (seqEnter b i (c :: rest)).2 = (seqEnter b (i + 1) rest).2 := by
          rcases hse : seqEnter b (i + 1) rest with ⟨evs, res⟩
          simp [seqEnter, hc, hse]
        rw [heq] at h
        exact ih (i + 1) s' out h hout

theorem sequentialStep_terminal {β : Type} (s : SeqState β) (b : β) (s' : SeqState β)
    (out : TreeStatus) (h : (sequentialStep s b).2 = .ok (s', out)) (hout : out ≠ RUNNING) :
    s' = .complete := by
  cases s with
  | start i cs => exact seqEnter_terminal b cs i s' out h hout
  | atChild i c k rest =>
    cases hc : c k b with
    | error e => simp [sequentialStep, hc] at h
    | ok r =>
      cases r with
      | RUNNING =>
        simp [sequentialStep, hc] at h
        exact absurd h.2.symm hout
      | FAILURE =>
        simp [sequentialStep, hc] at h
        exact h.1.symm
      | SUCCESS =>
        have heq : (sequentialStep (.atChild i c k rest) b).2 = (seqEnter b (i + 1) rest).2 := by
          rcases hse : seqEnter b (i + 1) rest with ⟨evs, res⟩
          simp [sequentialStep, hc, hse]
        rw [heq] at h
        exact seqEnter_terminal b rest (i + 1) s' out h hout
  | complete => simp [sequentialStep] at h

theorem fbEnter_terminal {β : Type} (b : β) :
    ∀ (cs : List (Child β)) (i : Nat) (s' : FbState β) (out : TreeStatus),
    (fbEnter b i cs).2 = .ok (s', out) → out ≠ RUNNING → s' = .complete := by
  intro cs
  induction cs with
  | nil =>
    intro i s' out h _
    simp [fbEnter] at h
    exact h.1.symm
  | cons c rest ih =>
    intro i s' out h hout
    cases hc : c 0 b with
    | error e => simp [fbEnter, hc] at h
    | ok r =>
      cases r with
      | RUNNING =>
        simp [fbEnter, hc] at h
        exact absurd h.2.symm hout
      | SUCCESS =>
        simp [fbEnter, hc] at h
        exact h.1.symm
      | FAILURE =>
        have heq : (fbEnter b i (c :: rest)).2 = (fbEnter b (i + 1) rest).2 := by
          rcases hse : fbEnter b (i + 1) rest with ⟨evs, res⟩
          simp [fbEnter, hc, hse]
        rw [heq] at h
        exact ih (i + 1) s' out h hout

theorem fallbackStep_terminal {β : Type} (s : FbState β) (b : β) (s' : FbState β)
    (out : TreeStatus) (h : (fallbackStep s b).2 = .ok (s', out)) (hout : out ≠ RUNNING) :
    s' = .complete := by
  cases s with
  | start i cs => exact fbEnter_terminal b cs i s' out h hout
  | atChild i c k rest =>
    cases hc : c k b with
    | error e => simp [fallbackStep, hc] at h
    | ok r =>
      cases r with
      | RUNNING =>
        simp [fallbackStep, hc] at h
        exact absurd h.2.symm hout
      | SUCCESS =>
        simp [fallbackStep, hc] at h
        exact h.1.symm
      | FAILURE =>
        have heq : (fallbackStep (.atChild i c k rest) b).2 = (fbEnter b (i + 1) rest).2 := by
          rcases hse : fbEnter b (i + 1) rest with ⟨evs, res⟩
          simp [fallbackStep, hc, hse]
        rw [heq] at h
        exact fbEnter_terminal b rest (i + 1) s' out h hout
  | complete => simp [fallbackStep] at h

theorem repHandle_terminal (cont : TreeStatus) (cnt : Option Nat) (i : Nat) (r : TreeStatus)
    (s' : RepState) (out : TreeStatus) (h : repHandle cont cnt i r = (s', out))
    (hout : out ≠ RUNNING) : s' = .complete := by
  unfold repHandle at h
  by_cases hc : r = cont
  · rw [if_pos hc] at h
    cases cnt with
    | none =>
      simp at h
      exact absurd h.2.symm hout
    | some n =>
      by_cases hb : n - 1 ≤ i
      · have h2 : ((RepState.complete, r) : RepState × TreeStatus) = (s', out) := by
          rw [← h]
          show _ = if n - 1 ≤ i then ((RepState.complete, r) : RepState × TreeStatus)
            else (.between (i + 1), RUNNING)
          rw [if_pos hb]
        simp at h2
        exact h2.1.symm
      · have h2 : ((RepState.between (i + 1), RUNNING) : RepState × TreeStatus) = (s', out) := by
          rw [← h]
          show _ = if n - 1 ≤ i then ((RepState.complete, r) : RepState × TreeStatus)
            else (.between (i + 1), RUNNING)
          rw [if_neg hb]
        simp at h2
        exact absurd h2.2.symm hout
  · rw [if_neg hc] at h
    simp at h
    exact h.1.symm

theorem repTickChild_terminal {β : Type} (fac : Nat → Child β) (cont : TreeStatus)
    (cnt : Option Nat) (i k : Nat) (b : β) (s' : RepState) (out : TreeStatus)
    (h : (repTickChild fac cont cnt i k b).2 = .ok (s', out)) (hout : out ≠ RUNNING) :
    s' = .complete := by
  unfold repTickChild at h
  cases hc : fac i k b with
  | error e => rw [hc] at h; simp at h
  | ok r =>
    rw [hc] at h
    cases r with
    | RUNNING =>
      simp at h
      exact absurd h.2.symm hout
    | SUCCESS =>
      have h2 : (Except.ok (repHandle cont cnt i SUCCESS) :
          Except PyError (RepState × TreeStatus)) = .ok (s', out) := h
      simp at h2
      exact repHandle_terminal cont cnt i SUCCESS s' out h2 hout
    | FAILURE =>
      have h2 : (Except.ok (repHandle cont cnt i FAILURE) :
          Except PyError (RepState × TreeStatus)) = .ok (s', out) := h
      simp at h2
      exact repHandle_terminal cont cnt i FAILURE s' out h2 hout

theorem repeatStep_terminal {β : Type} (fac : Nat → Child β) (cont : TreeStatus)
    (cnt : Option Nat) (s : RepState) (b : β) (s' : RepState) (out : TreeStatus)
    (h : (repeatStep fac cont cnt s b).2 = .ok (s', out)) (hout : out ≠ RUNNING) :
    s' = .complete := by
  cases s with
  | start =>
    cases cnt with
    | none => exact repTickChild_terminal fac cont none 0 0 b s' out h hout
    | some n =>
      cases n with
      | zero =>
        simp [repeatStep] at h
        exact h.1.symm
      | succ n => exact repTickChild_terminal fac cont (some (n + 1)) 0 0 b s' out h hout
  | between i => exact repTickChild_terminal fac cont cnt i 0 b s' out h hout
  | inChild i k => exact repTickChild_terminal fac cont cnt i k b s' out h hout
  | complete => simp [repeatStep] at h

theorem fsLoop_terminal {β : Type} (check : β → Bool) (nominal failure : Child β)
    (firstEvs : List Ev) (bb : β) (k : Nat) (s' : FsState β) (out : TreeStatus)
    (h : (fsLoop check nominal failure firstEvs bb k).2 = .ok (s', out))
    (hout : out ≠ RUNNING) : s' = .complete := by
  unfold fsLoop at h
  by_cases hcb : check bb
  · rw [if_pos hcb] at h
    cases hn : nominal k bb with
    | error e => rw [hn] at h; simp at h
    | ok r =>
      rw [hn] at h
      cases r with
      | RUNNING =>
        simp at h
        exact absurd h.2.symm hout
      | SUCCESS => simp at h; exact h.1.symm
      | FAILURE => simp at h; exact h.1.symm
  · rw [if_neg hcb] at h
    cases hf : failure 0 bb with
    | error e => rw [hf] at h; simp at h
    | ok r =>
      rw [hf] at h
      cases r with
      | RUNNING =>
        simp at h
        exact absurd h.2.symm hout
      | SUCCESS => simp at h; exact h.1.symm
      | FAILURE => simp at h; exact h.1.symm

theorem failsafeStep_terminal {β : Type} (check : β → Bool) (nominal failure : Child β)
    (s : FsState β) (b : β) (s' : FsState β) (out : TreeStatus)
    (h : (failsafeStep check nominal failure s b).2 = .ok (s', out))
    (hout : out ≠ RUNNING) : s' = .complete := by
  cases s with
  | start => exact fsLoop_terminal check nominal failure [.setup 0] b 0 s' out h hout
  | nominalSt bb k => exact fsLoop_terminal check nominal failure [] bb k s' out h hout
  | failureSt k =>
    have h2 : (failsafeStep check nominal failure (.failureSt k) b).2 = .ok (s', out) := h
    cases hf : failure k b with
    | error e => simp [failsafeStep, hf] at h2
    | ok r =>
      cases r with
      | RUNNING =>
        simp [failsafeStep, hf] at h2
        exact absurd h2.2.symm hout
      | SUCCESS => simp [failsafeStep, hf] at h2; exact h2.1.symm
      | FAILURE => simp [failsafeStep, hf] at h2; exact h2.1.symm
  | complete => simp [failsafeStep] at h

theorem parallelStep_terminal {β : Type} (agg : List TreeStatus → TreeStatus)
    (children : List (Child β)) (s : ParState) (b : β) (s' : ParState) (out : TreeStatus)
    (h : (parallelStep agg children s b).2 = .ok (s', out)) (hout : out ≠ RUNNING) :
    s'.isDone = true := by
  unfold parallelStep at h
  by_cases hd : s.isDone
  · rw [if_pos hd] at h
    simp at h
  · rw [if_neg hd] at h
    rcases hpc : parCollect s.k b 0 children with ⟨evs, res⟩
    rw [hpc] at h
    cases res with
    | error e => simp at h
    | ok rs =>
      simp at h
      obtain ⟨h1, h2⟩ := h
      subst h1
      have hne : agg rs ≠ RUNNING := by
        intro hr
        apply hout
        rw [← h2, hr]
      simp [hne]

/-- C6: once a tick of a single-shot composite (sequential, fallback,
repeat — hence also retry/redo — failsafe, parallel) has returned a terminal
result (SUCCESS or FAILURE), every subsequent tick call raises
`BehaviourCompleteError` instead of returning a result. -/
theorem C6_ticked_after_completion :
    (∀ (β : Type) (s : SeqState β) (b : β) (s' : SeqState β) (out : TreeStatus),
      (sequentialStep s b).2 = .ok (s', out) → out ≠ RUNNING →
      ∀ bs : List β, runOut sequentialStep s' bs = bs.map fun _ => .error .behaviourComplete)
    ∧ (∀ (β : Type) (s : FbState β) (b : β) (s' : FbState β) (out : TreeStatus),
      (fallbackStep s b).2 = .ok (s', out) → out ≠ RUNNING →
      ∀ bs : List β, runOut fallbackStep s' bs = bs.map fun _ => .error .behaviourComplete)
    ∧ (∀ (β : Type) (fac : Nat → Child β) (cont : TreeStatus) (cnt : Option Nat)
        (s : RepState) (b : β) (s' : RepState) (out : TreeStatus),
      (repeatStep fac cont cnt s b).2 = .ok (s', out) → out ≠ RUNNING →
      ∀ bs : List β, runOut (repeatStep fac cont cnt) s' bs =
        bs.map fun _ => .error .behaviourComplete)
    ∧ (∀ (β : Type) (check : β → Bool) (nominal failure : Child β)
        (s : FsState β) (b : β) (s' : FsState β) (out : TreeStatus),
      (failsafeStep check nominal failure s b).2 = .ok (s', out) → out ≠ RUNNING →
      ∀ bs : List β, runOut (failsafeStep check nominal failure) s' bs =
        bs.map fun _ => .error .behaviourComplete)
    ∧ (∀ (β : Type) (agg : List TreeStatus → TreeStatus) (children : List (Child β))
        (s : ParState) (b : β) (s' : ParState) (out : TreeStatus),
      (parallelStep agg children s b).2 = .ok (s', out) → out ≠ RUNNING →
      ∀ bs : List β, runOut (parallelStep agg children) s' bs =
        bs.map fun _ => .error .behaviourComplete) := by
  refine ⟨?_, ?_, ?_, ?_, ?_⟩
  · intro β s b s' out h hout bs
    rw [sequentialStep_terminal s b s' out h hout]
    exact runOut_stuck _ _ (fun _ => rfl) bs
  · intro β s b s' out h hout bs
    rw [fallbackStep_terminal s b s' out h hout]
    exact runOut_stuck _ _ (fun _ => rfl) bs
  · intro β fac cont cnt s b s' out h hout bs
    rw [repeatStep_terminal fac cont cnt s b s' out h hout]
    exact runOut_stuck _ _ (fun _ => rfl) bs
  · intro β check nominal failure s b s' out h hout bs
    rw [failsafeStep_terminal check nominal failure s b s' out h hout]
    exact runOut_stuck _ _ (fun _ => rfl) bs
  · intro β agg children s b s' out h hout bs
    have hd := parallelStep_terminal agg children s b s' out h hout
    exact runOut_stuck _ _ (fun b' => by simp [parallelStep, hd]) bs

/-- Closed instance of the C6 theorem: each of the five composites, having
just produced a terminal result from a concrete state, raises on the next two
ticks. -/
theorem C6_ticked_after_completion_witness :
    runOut sequentialStep (SeqState.complete (β := Unit)) [(), ()] =
      [.error .behaviourComplete, .error .behaviourComplete]
    ∧ runOut fallbackStep (FbState.complete (β := Unit)) [(), ()] =
      [.error .behaviourComplete, .error .behaviourComplete]
    ∧ runOut (repeatStep (fun _ => mkChild Unit 0 SUCCESS) FAILURE none) .complete [(), ()] =
      [.error .behaviourComplete, .error .behaviourComplete]
    ∧ runOut (failsafeStep (fun (_ : Unit) => true) (mkChild Unit 0 SUCCESS)
        (mkChild Unit 0 SUCCESS)) .complete [(), ()] =
      [.error .behaviourComplete, .error .behaviourComplete]
    ∧ runOut (parallelStepDefault [mkChild Unit 0 SUCCESS]) ⟨true, 1⟩ [(), ()] =
      [.error .behaviourComplete, .error .behaviourComplete] := by
  refine ⟨?_, ?_, ?_, ?_, ?_⟩
  · exact C6_ticked_after_completion.1 Unit (.start 0 [mkChild Unit 0 SUCCESS]) ()
      .complete SUCCESS rfl (by decide) [(), ()]
  · exact C6_ticked_after_completion.2.1 Unit (.start 0 [mkChild Unit 0 FAILURE]) ()
      .complete FAILURE rfl (by decide) [(), ()]
  · exact C6_ticked_after_completion.2.2.1 Unit (fun _ => mkChild Unit 0 SUCCESS) FAILURE
      none (.between 0) () .complete SUCCESS rfl (by decide) [(), ()]
  · exact C6_ticked_after_completion.2.2.2.1 Unit (fun (_ : Unit) => true)
      (mkChild Unit 0 SUCCESS) (mkChild Unit 0 SUCCESS) .start () .complete SUCCESS rfl
      (by decide) [(), ()]
  · exact C6_ticked_after_completion.2.2.2.2 Unit
      (fun rs => any_running_is_running_allow_max_failures_failures rs 0)
      [mkChild Unit 0 SUCCESS] ⟨false, 0⟩ () ⟨true, 1⟩ SUCCESS rfl (by decide) [(), ()]

/- ------------------------------------------------------------------
Claim C7: react routing (spec-modelled, §4.6).
------------------------------------------------------------------ -/

/-- C7: for every condition and children, ticking `react` with condition
values true, true, false, false, true routes the five ticks to
nominal, nominal, failure, failure, nominal respectively, and each branch's
internal state is preserved while the other branch is active: the ticks use
the branches' own per-instance tick counts 0, 1 / 0, 1 / 2 — the fifth tick
resumes the nominal branch exactly where its second tick left it. -/
theorem C7_react_routing :
    ∀ (β : Type) (condition : β → Bool) (nominal failure : Nat → β → TreeStatus)
      (b1 b2 b3 b4 b5 : β),
    condition b1 = true → condition b2 = true → condition b3 = false →
    condition b4 = false → condition b5 = true →
    runReact condition nominal failure ⟨true, 0, 0⟩ [b1, b2, b3, b4, b5] =
      [nominal 0 b1, nominal 1 b2, failure 0 b3, failure 1 b4, nominal 2 b5] := by
  intro β condition nominal failure b1 b2 b3 b4 b5 h1 h2 h3 h4 h5
  simp [runReact, reactStep, h1, h2, h3, h4, h5]

/-- Closed instance of the C7 theorem: an embedded counter in the nominal
branch (SUCCESS on its third tick) fires on the fifth tick of the react node,
showing the branch state survived the failure interval. -/
theorem C7_react_routing_witness :
    runReact (fun b => b) (fun k _ => if k = 2 then SUCCESS else RUNNING)
        (fun _ _ => FAILURE) ⟨true, 0, 0⟩ [true, true, false, false, true] =
      [RUNNING, RUNNING, FAILURE, FAILURE, SUCCESS] :=
  C7_react_routing Bool (fun b => b) (fun k _ => if k = 2 then SUCCESS else RUNNING)
    (fun _ _ => FAILURE) true true false false true rfl rfl rfl rfl rfl

/- ------------------------------------------------------------------
Claim C8: the bookkeeping store — `_ctx.py` and `_manage_call_stack`
(src/src/btreeny/__init__.py lines 42-57).

The `call_stack` context variable is initialised by `_ctx.py` to the empty
list `[]`, while `_manage_call_stack` stores bare node ids in it and the
graph consumers (`viz.py`, `trace.py`) look the root up under the key `None`.
A `StackVal` models the values that can appear there; uuid4 identities are
modelled by a fresh counter, display names by numeric codes.
------------------------------------------------------------------ -/

inductive StackVal where
  | vList (l : List Nat)
  | vId (id : Nat)
  | vNone
deriving DecidableEq, Repr

/-- Whether a `StackVal` is hashable (usable as a Python dict key): a list is
not. -/
def hashableKey : StackVal → Bool
  | .vList _ => false
  | .vId _ => true
  | .vNone => true

/-- The bookkeeping store: name map, active-ancestor marker, parent-to-child
graph (insertion-ordered), and the uuid4 counter. -/
structure Ctx where
  idMap : List (Nat × Nat)
  callStack : StackVal
  graph : List (StackVal × List Nat)
  nextId : Nat
deriving DecidableEq, Repr

/-- The context as initialised by `_ctx.py`: `id_map = {}`, `call_stack = []`
(the empty list), `tree_graph = {}`. -/
def initialCtx : Ctx := ⟨[], .vList [], [], 0⟩

/-- `_tree_graph.setdefault(parent, []).append(id)` on an insertion-ordered
dict: hashes the key first, so an unhashable key raises `TypeError`. -/
def graphAppendChild (g : List (StackVal × List Nat)) (key : StackVal) (cid : Nat) :
    Except PyError (List (StackVal × List Nat)) :=
  if hashableKey key then
    .ok (if (g.find? fun p => p.1 == key).isSome then
      g.map fun p => if p.1 == key then (p.1, p.2 ++ [cid]) else p
    else g ++ [(key, [cid])])
  else .error .typeError

/-- The setup half of `_manage_call_stack`: record the new id's name, read
the parent from `call_stack`, point `call_stack` at the new id and append the
id under the parent in the graph.  (In the source `call_stack.set(id)` runs
before the `setdefault`; when the latter raises, the acquisition aborts, so
only the raised error is observable.)  Returns the updated context and the
saved parent that the exit half restores. -/
def manageCallStackEnter (name : Nat) (c : Ctx) : Except PyError (Ctx × StackVal) :=
  let id := c.nextId
  let idMap' := c.idMap ++ [(id, name)]
  let parent := c.callStack
  match graphAppendChild c.graph parent id with
  | .error e => .error e
  | .ok g' => .ok (⟨idMap', .vId id, g', id + 1⟩, parent)

/-- The exit half of `_manage_call_stack`: restore the saved parent. -/
def manageCallStackExit (saved : StackVal) (c : Ctx) : Ctx :=
  ⟨c.idMap, saved, c.graph, c.nextId⟩

/-- The bookkeeping operations performed over the life of
`sequential(leafA, leafB)` with two immediately succeeding leaves (name codes
0 = sequential, 1 = leafA, 2 = leafB): the root registers when its handle is
acquired; the first tick enters leafA, releases it on its SUCCESS (restoring
the root as active ancestor) and enters leafB within the same call — the
order given by the sequential machine's trace.  No later tick re-enters
`_manage_call_stack`, so the graph never changes afterwards. -/
def buildSequentialTwoLeaves (c0 : Ctx) : Except PyError Ctx := do
  let (c1, _pRoot) ← manageCallStackEnter 0 c0
  let (c2, pA) ← manageCallStackEnter 1 c1
  let c3 := manageCallStackExit pA c2
  let (c4, _pB) ← manageCallStackEnter 2 c3
  pure c4

/-- Dict lookup in the graph. -/
def graphLookup (g : List (StackVal × List Nat)) (key : StackVal) : Option (List Nat) :=
  (g.find? fun p => p.1 == key).map fun p => p.2

/-- C8 evaluation: in the context initialised by `_ctx.py` the very first
node acquisition raises `TypeError` — the parent key read from `call_stack`
is the unhashable list `[]` — so construction fails instead of succeeding
(conjunct 1).  With `call_stack` initialised to `None`, as the root lookup in
`viz.py`/`trace.py`, the commented-out line in `_manage_call_stack` and the
spec all assume, the same operations produce exactly the claimed graph: `None`
maps to the single root child (the sequential node, id 0) and the sequential
node maps to the ordered leaves [1, 2] (conjuncts 2-4). -/
theorem C8_bookkeeping_graph :
    buildSequentialTwoLeaves initialCtx = .error .typeError
    ∧ buildSequentialTwoLeaves ⟨[], .vNone, [], 0⟩ =
        .ok ⟨[(0, 0), (1, 1), (2, 2)], .vId 2, [(.vNone, [0]), (.vId 0, [1, 2])], 3⟩
    ∧ graphLookup [(StackVal.vNone, [0]), (.vId 0, [1, 2])] .vNone = some [0]
    ∧ graphLookup [(StackVal.vNone, [0]), (.vId 0, [1, 2])] (.vId 0) = some [1, 2] :=
  ⟨rfl, rfl, rfl, rfl⟩

/- ------------------------------------------------------------------
Claim C9: swap / remap.
------------------------------------------------------------------ -/

/-- C9: `swap` raises `ValueError` exactly when the two results are equal,
and the error is produced at construction, before any tick function exists;
otherwise every tick returns the child's result with the two results
exchanged and everything else unchanged — in particular swapping SUCCESS and
FAILURE leaves RUNNING untouched. -/
theorem C9_swap_construction_and_mapping :
    ∀ (β : Type) (child : Child β) (from_ to_ : TreeStatus),
    (from_ = to_ → swap child from_ to_ = .error .valueError)
    ∧ (from_ ≠ to_ → ∃ node, swap child from_ to_ = .ok node ∧
        ∀ (k : Nat) (b : β) (r : TreeStatus), child k b = .ok r →
          node k b = .ok (if r = from_ then to_ else if r = to_ then from_ else r))
    ∧ (∀ node, swap child SUCCESS FAILURE = .ok node →
        ∀ (k : Nat) (b : β), child k b = .ok RUNNING → node k b = .ok RUNNING) := by
  intro β child from_ to_
  refine ⟨?_, ?_, ?_⟩
  · intro h
    simp [swap, h]
  · intro h
    refine ⟨remap child [(from_, to_), (to_, from_)], by simp [swap, h], ?_⟩
    intro k b r hr
    simp [remap, hr, Except.map, pyDictGet]
  · intro node hnode k b hr
    have hn : node = remap child [(SUCCESS, FAILURE), (FAILURE, SUCCESS)] := by
      simp [swap] at hnode
      exact hnode.symm
    subst hn
    simp [remap, hr, Except.map, pyDictGet]

/-- Closed instance of the C9 theorem: equal results reject at construction;
with SUCCESS and FAILURE swapped the mapping is as claimed, and a RUNNING
child result passes through unchanged. -/
theorem C9_swap_witness :
    swap (mkChild Unit 0 SUCCESS) SUCCESS SUCCESS = .error .valueError
    ∧ (∃ node, swap (mkChild Unit 0 SUCCESS) SUCCESS FAILURE = .ok node ∧
        ∀ (k : Nat) (b : Unit) (r : TreeStatus), mkChild Unit 0 SUCCESS k b = .ok r →
          node k b = .ok (if r = SUCCESS then FAILURE else if r = FAILURE then SUCCESS else r))
    ∧ remap (mkChild Unit 1 SUCCESS) [(SUCCESS, FAILURE), (FAILURE, SUCCESS)] 0 () =
        .ok RUNNING :=
  ⟨(C9_swap_construction_and_mapping Unit (mkChild Unit 0 SUCCESS) SUCCESS SUCCESS).1 rfl,
   (C9_swap_construction_and_mapping Unit (mkChild Unit 0 SUCCESS) SUCCESS FAILURE).2.1
     (by decide),
   (C9_swap_construction_and_mapping Unit (mkChild Unit 1 SUCCESS) SUCCESS FAILURE).2.2
     (remap (mkChild Unit 1 SUCCESS) [(SUCCESS, FAILURE), (FAILURE, SUCCESS)]) rfl 0 ()
     (by decide)⟩

/- ------------------------------------------------------------------
Claim C10: parallel re-ticks children that already returned a terminal
result.
------------------------------------------------------------------ -/

/-- Outcome of the `k`-th tick (0-based) of a machine driven with unit
blackboards; after an exception the machine keeps raising. -/
def nthOut {σ : Type} (step : σ → Unit → List Ev × Except PyError (σ × TreeStatus)) :
    σ → Nat → Except PyError TreeStatus
  | s, 0 => ((step s ()).2).map (·.2)
  | s, k + 1 =>
    match (step s ()).2 with
    | .ok (s', _) => nthOut step s' k
    | .error _ => nthOut step s k

/-- A composite machine embedded as a parallel child. -/
def machineChild {σ : Type} (step : σ → Unit → List Ev × Except PyError (σ × TreeStatus))
    (s0 : σ) : Child Unit :=
  fun k _ => nthOut step s0 k

/-- C10: a not-yet-terminal parallel node ticks every child on every call, at
the same shared tick count — there is no per-child completion tracking, so a
child that already returned a terminal result on an earlier tick is ticked
again (conjunct 1).  Consequently, with a single-shot `sequential` child that
succeeds on the first tick while its sibling is still RUNNING, the parallel
node returns RUNNING on the first tick and raises `BehaviourCompleteError`
out of its second tick instead of returning a result (conjunct 2). -/
theorem tickedChildren_map (k : Nat) :
    ∀ l : List Nat, tickedChildren (l.map fun j => Ev.childTick j k) = l := by
  intro l
  induction l with
  | nil => rfl
  | cons j rest ih =>
    simp only [tickedChildren] at ih ⊢
    simp [List.filterMap_cons, ih]

theorem C10_parallel_no_completion_tracking :
    (∀ (β : Type) (fs : List (Nat → β → TreeStatus)) (k : Nat) (b : β),
      tickedChildren (parallelStepDefault (fs.map pureChild) ⟨false, k⟩ b).1 =
        List.range' 0 fs.length)
    ∧ runOut (parallelStepDefault
        [machineChild sequentialStep (.start 0 [pureChild fun _ _ => SUCCESS]),
         pureChild fun _ _ => RUNNING]) ⟨false, 0⟩ [(), ()] =
      [.ok RUNNING, .error .behaviourComplete] := by
  refine ⟨?_, by decide⟩
  intro β fs k b
  have h := parallelStep_all
    (fun rs => any_running_is_running_allow_max_failures_failures rs 0) fs k b
  rw [show parallelStepDefault (fs.map pureChild) (⟨false, k⟩ : ParState) b =
    parallelStep (fun rs => any_running_is_running_allow_max_failures_failures rs 0)
      (fs.map pureChild) ⟨false, k⟩ b from rfl, h]
  exact tickedChildren_map k (List.range' 0 fs.length)

end BT
